import Mathlib

/-!
# LuaFS: the directory iterator of `filesystem.c`

A shallow embedding of `PushFileAttributes`, `DirectoryIterator`,
`DirectoryIteratorNext`, `DirectoryIteratorSkipDescendants` and
`DirectoryIteratorClose`, together with a model of the libc `fts(3)` handle
they drive, and the properties of the tree walker proved about them.

The Lua stack is modelled by the list of values a C function returns, the
userdata by the record `DirectoryIteratorState`, and the C library by a log of
the `fts` calls made plus the value of `errno`.
-/

namespace LuaFS

/-! ## Status records and `PushFileAttributes` -/

/-- A `struct timespec`. -/
structure Timespec where
  tv_sec : Int
  tv_nsec : Int
  deriving DecidableEq, Repr

/-- The fields of `struct stat` that `PushFileAttributes` reads. -/
structure Stat where
  st_mode : Nat
  st_mtimespec : Timespec
  st_ctimespec : Timespec
  st_birthtimespec : Timespec
  st_size : Int
  deriving DecidableEq, Repr

/-- File type mask of `<sys/stat.h>`. -/
def S_IFMT : Nat := 0o170000
/-- Block special. -/
def S_IFBLK : Nat := 0o060000
/-- Character special. -/
def S_IFCHR : Nat := 0o020000
/-- Directory. -/
def S_IFDIR : Nat := 0o040000
/-- Named pipe. -/
def S_IFIFO : Nat := 0o010000
/-- Regular file. -/
def S_IFREG : Nat := 0o100000
/-- Symbolic link. -/
def S_IFLNK : Nat := 0o120000
/-- Socket. -/
def S_IFSOCK : Nat := 0o140000

def S_ISBLK (m : Nat) : Bool := m &&& S_IFMT == S_IFBLK
def S_ISCHR (m : Nat) : Bool := m &&& S_IFMT == S_IFCHR
def S_ISDIR (m : Nat) : Bool := m &&& S_IFMT == S_IFDIR
def S_ISFIFO (m : Nat) : Bool := m &&& S_IFMT == S_IFIFO
def S_ISREG (m : Nat) : Bool := m &&& S_IFMT == S_IFREG
def S_ISLNK (m : Nat) : Bool := m &&& S_IFMT == S_IFLNK
def S_ISSOCK (m : Nat) : Bool := m &&& S_IFMT == S_IFSOCK

/-- The macro `NANO_SECONDS_PER_SECOND`, the double constant `1e9`. -/
def NANO_SECONDS_PER_SECOND : ℚ := 1000000000

/-- The value the specification gives a timestamp: `seconds + nanoseconds / 1e9`,
taken exactly. It follows the spec's words; what the C expression computes in
`double` arithmetic is `timespecDouble`. -/
def timespecSeconds (ts : Timespec) : ℚ :=
  (ts.tv_sec : ℚ) + (ts.tv_nsec : ℚ) / NANO_SECONDS_PER_SECOND

/-- Rounding to the nearest integer, ties to the even one. -/
def roundHalfEven (x : ℚ) : Int :=
  if x - ⌊x⌋ < 1 / 2 then ⌊x⌋
  else if 1 / 2 < x - ⌊x⌋ then ⌊x⌋ + 1
  else if ⌊x⌋ % 2 = 0 then ⌊x⌋ else ⌊x⌋ + 1

/-- The exponent of the unit in the last place of the binary64 numbers around
`x`: 53 significant bits, and `2 ^ (-1074)` for subnormal numbers. -/
def ulpExponent (x : ℚ) : Int := max (Int.log 2 |x| - 52) (-1074)

/-- The result of a `double` operation whose exact value is `x`: IEEE 754
binary64 rounding, to nearest with ties to even. Overflow to infinity is not
modelled; it cannot arise from 64-bit integer operands. -/
def binary64 (x : ℚ) : ℚ :=
  if x = 0 then 0 else (roundHalfEven (x / 2 ^ ulpExponent x) : ℚ) * 2 ^ ulpExponent x

/-- The C expression `ts.tv_sec + ts.tv_nsec / NANO_SECONDS_PER_SECOND`, of type
`double`: both integers are converted to `double`, then divided and added,
each step rounded to binary64. -/
def timespecDouble (ts : Timespec) : ℚ :=
  binary64 (binary64 (ts.tv_sec : ℚ) +
    binary64 (binary64 (ts.tv_nsec : ℚ) / NANO_SECONDS_PER_SECOND))

/-- The conversion C applies to a `double` argument passed for the `lua_Integer`
parameter of `lua_pushinteger`: the fractional part is discarded (truncation
toward zero). A value outside the range of `lua_Integer`, for which C defines
no result, is not modelled. -/
def toLuaInteger (x : ℚ) : Int := Int.tdiv x.num (x.den : Int)

/-- The table built by `PushFileAttributes`: one string field and four fields
set with `lua_pushinteger`. -/
structure AttributeTable where
  type : String
  modificationTime : Int
  changeTime : Int
  creationTime : Int
  size : Int
  deriving DecidableEq, Repr

/-- The string stored in the `type` field: the chain of `S_IS*` tests. -/
def fileType (m : Nat) : String :=
  if S_ISBLK m then "BlockDevice"
  else if S_ISCHR m then "CharacterDevice"
  else if S_ISDIR m then "Directory"
  else if S_ISFIFO m then "NamedPipe"
  else if S_ISREG m then "RegularFile"
  else if S_ISLNK m then "SymbolicLink"
  else if S_ISSOCK m then "Socket"
  else "Other"

/-- `PushFileAttributes(L, st)`: the table left on the stack. -/
def PushFileAttributes (st : Stat) : AttributeTable :=
  { type := fileType st.st_mode
    modificationTime := toLuaInteger (timespecDouble st.st_mtimespec)
    changeTime := toLuaInteger (timespecDouble st.st_ctimespec)
    creationTime := toLuaInteger (timespecDouble st.st_birthtimespec)
    size := st.st_size }

/-! ## The `fts(3)` handle -/

/-- The values of `fts_info`. -/
inductive FtsInfo where
  | FTS_D | FTS_DC | FTS_DEFAULT | FTS_DNR | FTS_DOT | FTS_DP | FTS_ERR
  | FTS_F | FTS_INIT | FTS_NS | FTS_NSOK | FTS_SL | FTS_SLNONE | FTS_W
  deriving DecidableEq, Repr

open FtsInfo

/-- The fields of `FTSENT` the iterator reads. -/
structure FTSENT where
  fts_info : FtsInfo
  fts_path : String
  fts_errno : Nat
  fts_statp : Stat
  deriving DecidableEq, Repr

/-- Modelled from the spec: the raw walk behind an `FTS` handle, which libc
implements and the source only calls. A walk is either exhausted (`fts_read`
returns `NULL` and leaves `errno` at the given value, `0` for a clean end) or
has a next entry; after an entry the walk goes on with `next`, or with
`skipped` when `FTS_SKIP` was set on that entry before the following
`fts_read`. A plain stream of raw entries is a walk whose two continuations
agree everywhere. -/
inductive RawWalk where
  | done (errno : Nat)
  | entry (e : FTSENT) (next : RawWalk) (skipped : RawWalk)
  deriving DecidableEq, Repr

/-- Modelled from the spec: the state of an open `FTS` handle: the entry the
last `fts_read` returned, whether `FTS_SKIP` is set on it, and the two
continuations of the walk. -/
structure FTS where
  fts_cur : Option FTSENT
  skipSet : Bool
  next : RawWalk
  skipped : RawWalk
  deriving DecidableEq, Repr

/-- Number of raw entries on the longest path of a walk. -/
def RawWalk.depth : RawWalk → Nat
  | .done _ => 0
  | .entry _ n s => max n.depth s.depth + 1

/-- The walk the next `fts_read` on the handle continues with. -/
def FTS.pending (sp : FTS) : RawWalk := if sp.skipSet then sp.skipped else sp.next

/-! ## Lua values, the userdata and the world -/

/-- An argument of `lua_pushfstring`. -/
inductive FormatArg where
  | str (s : String)
  | strerror (errnum : Nat)
  deriving DecidableEq, Repr

/-- The Lua values the iterator functions receive and return. -/
inductive LuaValue where
  | nil
  | boolean (b : Bool)
  | string (s : String)
  | fstring (fmt : String) (args : List FormatArg)
  | table (t : AttributeTable)
  | userdata
  deriving DecidableEq, Repr

/-- `lua_toboolean`. -/
def lua_toboolean : LuaValue → Bool
  | .nil => false
  | .boolean b => b
  | _ => true

/-- The userdata `struct DirectoryIteratorState`; a `NULL` pointer is `none`. -/
structure DirectoryIteratorState where
  ftsp : Option FTS
  currentEntry : Option FTSENT
  iterationFlags : Nat
  deriving DecidableEq, Repr

/-- A call of an `fts` function. -/
inductive Call where
  | fts_open (path : String) (options : Nat)
  | fts_read
  | fts_set (p : FTSENT)
  | fts_close
  deriving DecidableEq, Repr

/-- The iterator's userdata with the part of the C library it touches: `errno`
and the log of `fts` calls, oldest first. -/
structure World where
  state : DirectoryIteratorState
  errno : Nat
  calls : List Call
  deriving DecidableEq, Repr

def DIRECTORY_ITERATOR_ITERATE_SUBDIRECTORIES : Nat := 1 <<< 0
def DIRECTORY_ITERATOR_INCLUDE_FILE_ATTRIBUTES : Nat := 1 <<< 1

def FTS_NOCHDIR : Nat := 0x004
def FTS_NOSTAT : Nat := 0x008
def FTS_PHYSICAL : Nat := 0x010

/-- Modelled from the spec: `fts_read(state->ftsp)`. Returns the next raw entry
of the pending walk and makes it the handle's current entry; on an exhausted
walk returns `NULL` and sets `errno`. -/
def fts_read (w : World) : Option FTSENT × World :=
  match w.state.ftsp with
  | none => (none, { w with calls := w.calls ++ [Call.fts_read] })
  | some sp =>
    match sp.pending with
    | .done err =>
      (none, { state := { w.state with
                 ftsp := some { fts_cur := none, skipSet := false,
                                next := .done err, skipped := .done err } }
               errno := err
               calls := w.calls ++ [Call.fts_read] })
    | .entry e n s =>
      (some e, { state := { w.state with
                   ftsp := some { fts_cur := some e, skipSet := false,
                                  next := n, skipped := s } }
                 errno := w.errno
                 calls := w.calls ++ [Call.fts_read] })

/-- Modelled from the spec: `fts_set(state->ftsp, p, FTS_SKIP)`. The mark takes
effect when `p` is the entry the last `fts_read` returned. -/
def fts_set (w : World) (p : FTSENT) : World :=
  { w with
    state := { w.state with
      ftsp := w.state.ftsp.map fun sp =>
        if sp.fts_cur = some p then { sp with skipSet := true } else sp }
    calls := w.calls ++ [Call.fts_set p] }

/-- Modelled from the spec: `fts_close(state->ftsp)`. -/
def fts_close (w : World) : World :=
  { w with calls := w.calls ++ [Call.fts_close] }

/-! ## The iterator functions -/

/-- `state->iterationFlags & DIRECTORY_ITERATOR_ITERATE_SUBDIRECTORIES`. -/
def iterateSubdirectories (flags : Nat) : Bool :=
  flags &&& DIRECTORY_ITERATOR_ITERATE_SUBDIRECTORIES != 0

/-- `state->iterationFlags & DIRECTORY_ITERATOR_INCLUDE_FILE_ATTRIBUTES`. -/
def includeFileAttributes (flags : Nat) : Bool :=
  flags &&& DIRECTORY_ITERATOR_INCLUDE_FILE_ATTRIBUTES != 0

/-- The values pushed for a non-`NULL` entry (from `lua_pushstring(L,
entry->fts_path)` to the end of the `if (entry)` branch). -/
def pushEntry (flags : Nat) (errno : Nat) (entry : FTSENT) : List LuaValue :=
  [LuaValue.string entry.fts_path] ++
  (if entry.fts_info = FTS_NS then
    (if includeFileAttributes flags then [LuaValue.nil] else []) ++
    [LuaValue.fstring "Could not get file information for %s: %s"
      [FormatArg.str entry.fts_path, FormatArg.strerror errno]]
  else if includeFileAttributes flags then
    [LuaValue.table (PushFileAttributes entry.fts_statp)]
  else if entry.fts_info = FTS_DNR ∨ entry.fts_info = FTS_ERR then
    [LuaValue.fstring "Could not read %s: %s"
      [FormatArg.str entry.fts_path, FormatArg.strerror entry.fts_errno]]
  else [])

/-- The values pushed when `entry` is `NULL` (the `else` branch of `if (entry)`). -/
def pushEnd (flags : Nat) (errno : Nat) : List LuaValue :=
  [LuaValue.nil] ++
  (if includeFileAttributes flags then [LuaValue.nil] else []) ++
  (if errno ≠ 0 then
    [LuaValue.fstring "An error occured: %s" [FormatArg.strerror errno]]
  else [])

/-- `state->currentEntry = entry`. -/
def setCurrentEntry (w : World) (entry : Option FTSENT) : World :=
  { w with state := { w.state with currentEntry := entry } }

/-- `state->ftsp = NULL`. -/
def clearHandle (w : World) : World :=
  { w with state := { w.state with ftsp := none } }

mutual
/-- The body of `DirectoryIteratorNext` from the label `start:` on. The first
argument bounds the number of jumps still allowed. -/
def DirectoryIteratorNext.start : Nat → Option FTSENT → World → List LuaValue × World
  | fuel, entry, w =>
    let w := setCurrentEntry w entry
    match entry with
    | some e =>
      if e.fts_info = FTS_D then
        let w := if ¬ iterateSubdirectories w.state.iterationFlags then fts_set w e else w
        (pushEntry w.state.iterationFlags w.errno e, w)
      else if e.fts_info = FTS_DP then
        let w := setCurrentEntry w none
        match fuel with
        | 0 => ([], w)
        | fuel + 1 => DirectoryIteratorNext.loop fuel w
      else
        (pushEntry w.state.iterationFlags w.errno e, w)
    | none =>
      let results := pushEnd w.state.iterationFlags w.errno
      (results, clearHandle (fts_close w))
/-- The `for (;;)` loop of `DirectoryIteratorNext`: read until the entry is
`NULL` or not a post-order entry, then `goto start`. -/
def DirectoryIteratorNext.loop : Nat → World → List LuaValue × World
  | fuel, w =>
    let r := fts_read w
    match fuel with
    | 0 => ([], r.2)
    | fuel + 1 =>
      match r.1 with
      | none => DirectoryIteratorNext.start fuel none r.2
      | some e =>
        if e.fts_info ≠ FTS_DP then DirectoryIteratorNext.start fuel (some e) r.2
        else DirectoryIteratorNext.loop fuel r.2
end

/-- `DirectoryIteratorNext`: the values returned and the world afterwards. The
jump bound handed to `start` exceeds the number of raw entries left in the
walk, so it is never reached (`DirectoryIteratorNext_fuel`). -/
def DirectoryIteratorNext (w : World) : List LuaValue × World :=
  match w.state.ftsp with
  | none => ([], w)
  | some sp =>
    let r := fts_read w
    DirectoryIteratorNext.start (sp.pending.depth + 2) r.1 r.2

/-- `DirectoryIteratorSkipDescendants`. -/
def DirectoryIteratorSkipDescendants (w : World) : List LuaValue × World :=
  match w.state.currentEntry with
  | some p => ([], fts_set w p)
  | none => ([], w)

/-- `DirectoryIteratorClose`. -/
def DirectoryIteratorClose (w : World) : List LuaValue × World :=
  match w.state.ftsp with
  | some _ => ([], clearHandle (fts_close w))
  | none => ([], w)

/-- The second argument of `DirectoryIterator` when it is a table: the values of
the two fields the function reads. -/
structure OptionsTable where
  iterateSubdirectories : LuaValue
  includeFileAttributes : LuaValue
  deriving DecidableEq, Repr

/-- The value of `state->iterationFlags` after the option table is read. -/
def parseIterationFlags (options : Option OptionsTable) : Nat :=
  match options with
  | some t =>
    let flags := 0
    let flags := if lua_toboolean t.iterateSubdirectories
      then flags ||| DIRECTORY_ITERATOR_ITERATE_SUBDIRECTORIES else flags
    let flags := if lua_toboolean t.includeFileAttributes
      then flags ||| DIRECTORY_ITERATOR_INCLUDE_FILE_ATTRIBUTES else flags
    flags
  | none => 0

/-- The `options` argument handed to `fts_open`. -/
def ftsOptions (flags : Nat) : Nat :=
  let options := FTS_PHYSICAL ||| FTS_NOCHDIR
  if ¬ includeFileAttributes flags then options ||| FTS_NOSTAT else options

/-- `DirectoryIterator`. The libc function `fts_open` is a parameter: given the
path and the options it yields the raw walk of the new handle, or the `errno`
of the failure. `errno` is the value before the call. -/
def DirectoryIterator (fts_open : String → Nat → Except Nat RawWalk) (errno : Nat)
    (path : String) (options : Option OptionsTable) : List LuaValue × World :=
  let flags := parseIterationFlags options
  let opts := ftsOptions flags
  match fts_open path opts with
  | .ok walk =>
    let w : World :=
      { state := { ftsp := some { fts_cur := none, skipSet := false,
                                  next := walk, skipped := walk }
                   currentEntry := none
                   iterationFlags := flags }
        errno := errno
        calls := [Call.fts_open path opts] }
    ([LuaValue.userdata], (fts_read w).2)
  | .error err =>
    ([LuaValue.nil,
      LuaValue.fstring "Could not open %s: %s" [FormatArg.str path, FormatArg.strerror err]],
     { state := { ftsp := none, currentEntry := none, iterationFlags := flags }
       errno := err
       calls := [Call.fts_open path opts] })

/-! ## Driving the iterator -/

/-- A method call on the iterator: `iterator()`, `iterator:skipDescendants()`,
`iterator:close()`. -/
inductive Op where
  | pull
  | prune
  | close
  deriving DecidableEq, Repr

/-- The C function behind a method call. -/
def Op.apply : Op → World → List LuaValue × World
  | .pull, w => DirectoryIteratorNext w
  | .prune, w => DirectoryIteratorSkipDescendants w
  | .close, w => DirectoryIteratorClose w

/-- The world after a sequence of method calls. -/
def run : List Op → World → World
  | [], w => w
  | op :: ops, w => run ops (op.apply w).2

/-- The first return value as Lua adjusts it: a missing value is `nil`. -/
def firstValue : List LuaValue → LuaValue
  | [] => LuaValue.nil
  | v :: _ => v

/-- A call result that ends a generic `for` loop: its first value is `nil`. -/
def isEndOfSequence (results : List LuaValue) : Bool := firstValue results == LuaValue.nil

/-- Call the iterator until it signals the end of the sequence, at most `fuel`
times; the results of the calls made, the last one included, and the world
afterwards. -/
def pullUntilEnd : Nat → World → List (List LuaValue) × World
  | 0, w => ([], w)
  | fuel + 1, w =>
    let r := DirectoryIteratorNext w
    if isEndOfSequence r.1 then ([r.1], r.2)
    else
      let rest := pullUntilEnd fuel r.2
      (r.1 :: rest.1, rest.2)

/-- How often `fts_close` occurs in a call log. -/
def closeCount (calls : List Call) : Nat := calls.count Call.fts_close

/-! ## Raw streams and directory trees as walks -/

/-- The walk that returns the given raw entries in order, whatever is skipped,
and then goes on as `tail`. -/
def RawWalk.prepend : List FTSENT → RawWalk → RawWalk
  | [], tail => tail
  | e :: es, tail => .entry e (RawWalk.prepend es tail) (RawWalk.prepend es tail)

/-- The walk of a plain stream of raw entries that ends with `errno`. -/
def RawWalk.ofStream (es : List FTSENT) (errno : Nat) : RawWalk :=
  RawWalk.prepend es (.done errno)

/-- The kinds of entry, other than regular files, that are not directories. -/
inductive OtherKind where
  | symlink
  | special
  deriving DecidableEq, Repr

/-- The `fts_info` of such an entry when its status is read: `FTS_SL` for a
symbolic link, `FTS_DEFAULT` for a device, pipe or socket. -/
def OtherKind.info : OtherKind → FtsInfo
  | .symlink => FTS_SL
  | .special => FTS_DEFAULT

/-- The contents of a directory: its entries in the order the walk meets them,
each directory with its own contents. An entry is a regular file, another
non-directory, an entry whose status `fts` tries to read and cannot, a
directory, or a directory that cannot be read. -/
inductive Forest where
  | nil
  | file (path : String) (st : Stat) (siblings : Forest)
  | other (kind : OtherKind) (path : String) (st : Stat) (siblings : Forest)
  | nostatus (path : String) (errno : Nat) (siblings : Forest)
  | dir (path : String) (st : Stat) (children : Forest) (siblings : Forest)
  | unreadable (path : String) (st : Stat) (errno : Nat) (siblings : Forest)
  deriving DecidableEq, Repr

/-- The raw entry of a file: `FTS_NSOK` under `FTS_NOSTAT`, else `FTS_F`. -/
def fileEntry (nostat : Bool) (path : String) (st : Stat) : FTSENT :=
  { fts_info := if nostat then FTS_NSOK else FTS_F, fts_path := path, fts_errno := 0,
    fts_statp := st }

/-- The raw entry of another non-directory: `FTS_NSOK` under `FTS_NOSTAT`. -/
def otherEntry (nostat : Bool) (kind : OtherKind) (path : String) (st : Stat) : FTSENT :=
  { fts_info := if nostat then FTS_NSOK else kind.info, fts_path := path, fts_errno := 0,
    fts_statp := st }

/-- The status record `fts` leaves for an entry whose status it could not read:
all zero. -/
def zeroStat : Stat :=
  { st_mode := 0, st_mtimespec := ⟨0, 0⟩, st_ctimespec := ⟨0, 0⟩,
    st_birthtimespec := ⟨0, 0⟩, st_size := 0 }

/-- The raw entry of an entry whose status `fts` tried to read and could not:
`FTS_NS` with the `errno` of the failure. -/
def nostatusEntry (path : String) (errno : Nat) : FTSENT :=
  { fts_info := FTS_NS, fts_path := path, fts_errno := errno, fts_statp := zeroStat }

/-- The raw entry of a directory, pre-order (`FTS_D`) or post-order (`FTS_DP`). -/
def dirEntry (info : FtsInfo) (path : String) (st : Stat) : FTSENT :=
  { fts_info := info, fts_path := path, fts_errno := 0, fts_statp := st }

/-- The raw entry `fts` returns for a directory it failed to read, in place of
the post-order entry: `FTS_DNR` with the `errno` of the failure. -/
def unreadableEntry (path : String) (st : Stat) (errno : Nat) : FTSENT :=
  { fts_info := FTS_DNR, fts_path := path, fts_errno := errno, fts_statp := st }

/-- Modelled from the spec: the physical walk of a forest, continued by `k`: a
non-directory is one entry; a directory is its pre-order entry, then its
contents unless it is skipped, then its post-order entry; a directory that
cannot be read is its pre-order entry and then, unless it is skipped, the
`FTS_DNR` entry that replaces its post-order entry. -/
def walkOf (nostat : Bool) : Forest → RawWalk → RawWalk
  | .nil, k => k
  | .file p st sib, k =>
    .entry (fileEntry nostat p st) (walkOf nostat sib k) (walkOf nostat sib k)
  | .other kind p st sib, k =>
    .entry (otherEntry nostat kind p st) (walkOf nostat sib k) (walkOf nostat sib k)
  | .nostatus p err sib, k =>
    .entry (nostatusEntry p err) (walkOf nostat sib k) (walkOf nostat sib k)
  | .dir p st cs sib, k =>
    let leave := RawWalk.entry (dirEntry FTS_DP p st) (walkOf nostat sib k) (walkOf nostat sib k)
    .entry (dirEntry FTS_D p st) (walkOf nostat cs leave) leave
  | .unreadable p st err sib, k =>
    .entry (dirEntry FTS_D p st)
      (.entry (unreadableEntry p st err) (walkOf nostat sib k) (walkOf nostat sib k))
      (.entry (dirEntry FTS_DP p st) (walkOf nostat sib k) (walkOf nostat sib k))

/-- Modelled from the spec: `fts_open` on a file system that holds, at the path
`root`, the hierarchy `tree` (a single entry: a directory with its contents, a
directory that cannot be read, or a non-directory); any other path fails with
`ENOENT` (2). -/
def ftsOpenHierarchy (root : String) (tree : Forest) : String → Nat → Except Nat RawWalk :=
  fun path options =>
    if path = root then .ok (walkOf (options &&& FTS_NOSTAT != 0) tree (.done 0))
    else .error 2

/-- Modelled from the spec: `fts_open` on a file system that holds one readable
directory `root` with the given contents. -/
def ftsOpenTree (root : String) (st : Stat) (contents : Forest) :
    String → Nat → Except Nat RawWalk :=
  ftsOpenHierarchy root (.dir root st contents .nil)

/-- The walk left after its first entry is read and nothing is skipped. -/
def RawWalk.afterFirst : RawWalk → RawWalk
  | .done err => .done err
  | .entry _ n _ => n

/-- The paths of the entries of a forest in pre-order, each entry once. -/
def Forest.paths : Forest → List String
  | .nil => []
  | .file p _ sib => p :: sib.paths
  | .other _ p _ sib => p :: sib.paths
  | .nostatus p _ sib => p :: sib.paths
  | .dir p _ cs sib => p :: (cs.paths ++ sib.paths)
  | .unreadable p _ _ sib => p :: sib.paths

/-- The paths of the entries of a forest in pre-order, with the path of a
directory that cannot be read twice in a row. -/
def Forest.yieldedPaths : Forest → List String
  | .nil => []
  | .file p _ sib => p :: sib.yieldedPaths
  | .other _ p _ sib => p :: sib.yieldedPaths
  | .nostatus p _ sib => p :: sib.yieldedPaths
  | .dir p _ cs sib => p :: (cs.yieldedPaths ++ sib.yieldedPaths)
  | .unreadable p _ _ sib => p :: p :: sib.yieldedPaths

/-- Whether every directory of the forest can be read. -/
def Forest.readable : Forest → Bool
  | .nil => true
  | .file _ _ sib => sib.readable
  | .other _ _ _ sib => sib.readable
  | .nostatus _ _ sib => sib.readable
  | .dir _ _ cs sib => cs.readable && sib.readable
  | .unreadable _ _ _ _ => false

/-- The raw entries, other than post-order entries, that the walk of a forest
returns when nothing is skipped, in order. -/
def Forest.visits (nostat : Bool) : Forest → List FTSENT
  | .nil => []
  | .file p st sib => fileEntry nostat p st :: Forest.visits nostat sib
  | .other kind p st sib => otherEntry nostat kind p st :: Forest.visits nostat sib
  | .nostatus p err sib => nostatusEntry p err :: Forest.visits nostat sib
  | .dir p st cs sib =>
    dirEntry FTS_D p st :: (Forest.visits nostat cs ++ Forest.visits nostat sib)
  | .unreadable p st err sib =>
    dirEntry FTS_D p st :: unreadableEntry p st err :: Forest.visits nostat sib

/-! ## The effect of one call of the iterator, by recursion on the walk -/

/-- What a call of the iterator on a held handle returns and leaves behind, read
off the pending walk: post-order entries are passed over, the first other entry
is returned, an exhausted walk ends the sequence. -/
def pullSpec (flags errno : Nat) : RawWalk → List Call → List LuaValue × World
  | .done err, calls =>
    (pushEnd flags err,
     { state := { ftsp := none, currentEntry := none, iterationFlags := flags }
       errno := err
       calls := calls ++ [Call.fts_read, Call.fts_close] })
  | .entry e n s, calls =>
    if e.fts_info = FTS_DP then pullSpec flags errno n (calls ++ [Call.fts_read])
    else
      let prune : Bool := decide (e.fts_info = FTS_D) && !iterateSubdirectories flags
      (pushEntry flags errno e,
       { state := { ftsp := some { fts_cur := some e, skipSet := prune, next := n, skipped := s }
                    currentEntry := some e
                    iterationFlags := flags }
         errno := errno
         calls := calls ++ [Call.fts_read] ++ (if prune then [Call.fts_set e] else []) })

/-- The results of the successive calls of the iterator up to the end of the
sequence, read off the pending walk, when `skipDescendants` is not called in
between. -/
def yieldsSpec (flags errno : Nat) : RawWalk → List (List LuaValue)
  | .done err => [pushEnd flags err]
  | .entry e n s =>
    if e.fts_info = FTS_DP then yieldsSpec flags errno n
    else
      pushEntry flags errno e ::
        (if decide (e.fts_info = FTS_D) && !iterateSubdirectories flags
          then yieldsSpec flags errno s else yieldsSpec flags errno n)

/-- A value pushed with `lua_pushfstring`: the error messages of the iterator. -/
def LuaValue.isErrorMessage : LuaValue → Bool
  | .fstring _ _ => true
  | _ => false

/-- A table value: the attribute table of `PushFileAttributes`. -/
def LuaValue.isTable : LuaValue → Bool
  | .table _ => true
  | _ => false

/-- The entries on which `fts_set` was called, in order. -/
def skipCalls : List Call → List FTSENT
  | [] => []
  | Call.fts_set p :: cs => p :: skipCalls cs
  | _ :: cs => skipCalls cs

/-! ## Concrete inputs -/

/-- Status of a regular file last modified at 1.5 s. -/
def fileStat : Stat :=
  { st_mode := 0o100644, st_mtimespec := ⟨1, 500000000⟩, st_ctimespec := ⟨2, 0⟩,
    st_birthtimespec := ⟨3, 0⟩, st_size := 12 }

/-- Status of a directory. -/
def dirStat : Stat :=
  { st_mode := 0o040755, st_mtimespec := ⟨1, 0⟩, st_ctimespec := ⟨2, 0⟩,
    st_birthtimespec := ⟨3, 0⟩, st_size := 64 }

/-- The contents of `root`: `a.txt` and `sub/b.txt`. -/
def exampleContents : Forest :=
  .file "root/a.txt" fileStat
    (.dir "root/sub" dirStat (.file "root/sub/b.txt" fileStat .nil) .nil)

/-- The post-order entry of `root/sub`. -/
def subLeave : FTSENT := dirEntry FTS_DP "root/sub" dirStat

/-- The pre-order entry of `root/sub`. -/
def subEnter : FTSENT := dirEntry FTS_D "root/sub" dirStat

/-- The raw entry of the file `root/c.txt`, read with status. -/
def cFile : FTSENT := fileEntry false "root/c.txt" fileStat

/-- The raw entry of a directory that could not be read (`EACCES`). -/
def lockedDir : FTSENT :=
  { fts_info := FTS_DNR, fts_path := "root/locked", fts_errno := 13, fts_statp := dirStat }

/-- A world whose iterator holds a fresh handle on the given walk. -/
def heldWorld (flags : Nat) (walk : RawWalk) : World :=
  { state := { ftsp := some { fts_cur := none, skipSet := false, next := walk, skipped := walk }
               currentEntry := none
               iterationFlags := flags }
    errno := 0
    calls := [] }

/-- The handle of `heldWorld`. -/
def heldHandle (walk : RawWalk) : FTS :=
  { fts_cur := none, skipSet := false, next := walk, skipped := walk }

/-- The world after `DirectoryIterator("root", options)` on the file system that
holds `root` with `exampleContents`. -/
def exampleOpened (options : Option OptionsTable) : World :=
  (DirectoryIterator (ftsOpenTree "root" dirStat exampleContents) 0 "root" options).2

/-- The raw entry of `root/a.txt` under `FTS_NOSTAT`. -/
def aFile : FTSENT := fileEntry true "root/a.txt" fileStat

/-- The contents of `root`: a directory `locked` that cannot be read (`EACCES`)
and `a.txt`. -/
def lockedContents : Forest :=
  .unreadable "root/locked" dirStat 13 (.file "root/a.txt" fileStat .nil)

/-- The raw entry of `root/gone`, whose status could not be read (`ENOENT`). -/
def goneEntry : FTSENT := nostatusEntry "root/gone" 2

/-- Status with a modification time of 1700000000 s and 999999999 ns. -/
def lateStat : Stat :=
  { st_mode := 0o100644, st_mtimespec := ⟨1700000000, 999999999⟩, st_ctimespec := ⟨2, 0⟩,
    st_birthtimespec := ⟨3, 0⟩, st_size := 12 }

/-! # Theorems -/

/-! ## Binary64 rounding and the stored timestamps -/

theorem roundHalfEven_near (x : ℚ) (n : Int) (h : |x - n| < 1 / 2) : roundHalfEven x = n := by
  rw [abs_lt] at h
  unfold roundHalfEven
  by_cases hx : (n : ℚ) ≤ x
  · have hf : ⌊x⌋ = n := by
      rw [Int.floor_eq_iff]; constructor <;> linarith
    rw [hf, if_pos (by linarith)]
  · have hf : ⌊x⌋ = n - 1 := by
      rw [Int.floor_eq_iff]; push_cast; constructor <;> linarith
    rw [hf]
    push_cast
    rw [if_neg (by linarith), if_pos (by linarith)]
    ring

theorem roundHalfEven_intCast (n : Int) : roundHalfEven (n : ℚ) = n :=
  roundHalfEven_near _ n (by simp)

theorem le_roundHalfEven (x : ℚ) (n : Int) (h : (n : ℚ) ≤ x) : n ≤ roundHalfEven x := by
  have hf : n ≤ ⌊x⌋ := Int.le_floor.mpr h
  unfold roundHalfEven
  split_ifs <;> omega

theorem roundHalfEven_le (x : ℚ) (n : Int) (h : x ≤ (n : ℚ)) : roundHalfEven x ≤ n := by
  unfold roundHalfEven
  have hfl : (⌊x⌋ : ℚ) ≤ x := Int.floor_le x
  by_cases hx : x = ⌊x⌋
  · have : ⌊x⌋ ≤ n := by exact_mod_cast (hx ▸ h)
    rw [if_pos (by rw [← hx]; norm_num)]
    exact this
  · have hlt : (⌊x⌋ : ℚ) < x := lt_of_le_of_ne hfl (Ne.symm hx)
    have : ⌊x⌋ < n := by exact_mod_cast lt_of_lt_of_le hlt h
    split_ifs <;> omega

theorem log_two_eq (r : ℚ) (e : Int) (hr : 0 < r) (h1 : (2 : ℚ) ^ e ≤ r)
    (h2 : r < (2 : ℚ) ^ (e + 1)) : Int.log 2 r = e := by
  have a := (Int.zpow_le_iff_le_log (by norm_num : 1 < 2) hr).mp (by exact_mod_cast h1)
  have b := (Int.lt_zpow_iff_log_lt (by norm_num : 1 < 2) hr).mp (by exact_mod_cast h2)
  omega

theorem binary64_cert (x : ℚ) (e : Int) (n : Int) (h1 : (2 : ℚ) ^ e ≤ |x|)
    (h2 : |x| < (2 : ℚ) ^ (e + 1)) (he : -1022 ≤ e)
    (hn : |x / 2 ^ (e - 52) - n| < 1 / 2) : binary64 x = (n : ℚ) * 2 ^ (e - 52) := by
  have hpos : 0 < |x| := lt_of_lt_of_le (by positivity) h1
  have hx : x ≠ 0 := abs_pos.mp hpos
  have hu : ulpExponent x = e - 52 := by
    unfold ulpExponent
    rw [log_two_eq |x| e hpos h1 h2]
    omega
  unfold binary64
  rw [if_neg hx, hu, roundHalfEven_near _ n hn]

theorem ulpExponent_nonpos (x : ℚ) (hx : x ≠ 0) (h : |x| < 2 ^ 53) : ulpExponent x ≤ 0 := by
  have hpos : 0 < |x| := abs_pos.mpr hx
  have : Int.log 2 |x| < 53 :=
    (Int.lt_zpow_iff_log_lt (by norm_num : 1 < 2) hpos).mp (by exact_mod_cast h)
  unfold ulpExponent
  omega

theorem zpow_ulp (u : Int) (hu : u ≤ 0) : (2 : ℚ) ^ u = 1 / 2 ^ (-u).toNat := by
  have : u = -((-u).toNat : Int) := by omega
  conv_lhs => rw [this]
  rw [zpow_neg, zpow_natCast]
  simp

theorem le_binary64 (x : ℚ) (a : Int) (h : |x| < 2 ^ 53) (ha : (a : ℚ) ≤ x) :
    (a : ℚ) ≤ binary64 x := by
  unfold binary64
  by_cases hx : x = 0
  · rw [if_pos hx]; rw [hx] at ha; exact ha
  · rw [if_neg hx, zpow_ulp _ (ulpExponent_nonpos x hx h)]
    have hk : (0 : ℚ) < 2 ^ (-ulpExponent x).toNat := by positivity
    have := le_roundHalfEven (x / (1 / 2 ^ (-ulpExponent x).toNat))
      (a * 2 ^ (-ulpExponent x).toNat) (by
        push_cast
        rw [div_div_eq_mul_div, div_one]
        exact mul_le_mul_of_nonneg_right ha hk.le)
    have hq : ((a * 2 ^ (-ulpExponent x).toNat : Int) : ℚ) ≤
        (roundHalfEven (x / (1 / 2 ^ (-ulpExponent x).toNat)) : ℚ) := by exact_mod_cast this
    push_cast at hq
    rw [mul_one_div, le_div_iff₀ hk]
    exact hq

theorem binary64_le (x : ℚ) (b : Int) (h : |x| < 2 ^ 53) (hb : x ≤ (b : ℚ)) :
    binary64 x ≤ (b : ℚ) := by
  unfold binary64
  by_cases hx : x = 0
  · rw [if_pos hx]; rw [hx] at hb; exact hb
  · rw [if_neg hx, zpow_ulp _ (ulpExponent_nonpos x hx h)]
    have hk : (0 : ℚ) < 2 ^ (-ulpExponent x).toNat := by positivity
    have := roundHalfEven_le (x / (1 / 2 ^ (-ulpExponent x).toNat))
      (b * 2 ^ (-ulpExponent x).toNat) (by
        push_cast
        rw [div_div_eq_mul_div, div_one]
        exact mul_le_mul_of_nonneg_right hb hk.le)
    have hq : (roundHalfEven (x / (1 / 2 ^ (-ulpExponent x).toNat)) : ℚ) ≤
        ((b * 2 ^ (-ulpExponent x).toNat : Int) : ℚ) := by exact_mod_cast this
    push_cast at hq
    rw [mul_one_div, div_le_iff₀ hk]
    exact hq

theorem binary64_intCast (n : Int) (h : |(n : ℚ)| < 2 ^ 53) : binary64 (n : ℚ) = n :=
  le_antisymm (binary64_le _ n h le_rfl) (le_binary64 _ n h le_rfl)

theorem toLuaInteger_eq (x : ℚ) : toLuaInteger x = if 0 ≤ x then ⌊x⌋ else ⌈x⌉ := by
  unfold toLuaInteger
  have hden : (0 : Int) ≤ (x.den : Int) := Int.natCast_nonneg _
  by_cases hx : 0 ≤ x
  · rw [if_pos hx, Int.tdiv_eq_ediv (Rat.num_nonneg.mpr hx) hden]
    exact (Rat.floor_def' x).symm
  · rw [if_neg hx]
    have hneg : 0 ≤ (-x).num := Rat.num_nonneg.mpr (by linarith [not_le.mp hx])
    have h1 : (-x.num).tdiv (x.den : Int) = ⌊-x⌋ := by
      have := Int.tdiv_eq_ediv (by simpa using hneg : 0 ≤ -x.num) hden
      rw [this]
      have := Rat.floor_def' (-x)
      simpa using this.symm
    rw [Int.neg_tdiv] at h1
    have hc : ⌈x⌉ = -⌊-x⌋ := by
      rw [Int.floor_neg]; ring
    rw [hc, ← h1]
    ring

theorem toLuaInteger_between (z : ℚ) (k : Int) (h1 : (k : ℚ) ≤ z) (h2 : z ≤ (k : ℚ) + 1) :
    toLuaInteger z = k ∨ toLuaInteger z = k + 1 := by
  rw [toLuaInteger_eq]
  have hf1 : k ≤ ⌊z⌋ := Int.le_floor.mpr h1
  have hf2 : ⌊z⌋ ≤ k + 1 := by
    have : (⌊z⌋ : ℚ) ≤ ((k + 1 : Int) : ℚ) := by push_cast; exact le_trans (Int.floor_le z) h2
    exact_mod_cast this
  have hc1 : k ≤ ⌈z⌉ := by
    have : ((k : Int) : ℚ) ≤ (⌈z⌉ : ℚ) := le_trans h1 (Int.le_ceil z)
    exact_mod_cast this
  have hc2 : ⌈z⌉ ≤ k + 1 := Int.ceil_le.mpr (by push_cast; exact h2)
  split_ifs <;> omega

theorem toLuaInteger_intCast (k : Int) : toLuaInteger (k : ℚ) = k := by
  simp [toLuaInteger]

theorem timespecDouble_between (ts : Timespec)
    (hs1 : -2 ^ 52 ≤ ts.tv_sec) (hs2 : ts.tv_sec < 2 ^ 52)
    (hn1 : 0 ≤ ts.tv_nsec) (hn2 : ts.tv_nsec < 1000000000) :
    (ts.tv_sec : ℚ) ≤ timespecDouble ts ∧ timespecDouble ts ≤ (ts.tv_sec : ℚ) + 1 := by
  have hs1q : (-2 ^ 52 : ℚ) ≤ ts.tv_sec := by exact_mod_cast hs1
  have hs2q : (ts.tv_sec : ℚ) < 2 ^ 52 := by exact_mod_cast hs2
  have hn1q : (0 : ℚ) ≤ ts.tv_nsec := by exact_mod_cast hn1
  have hn2q : (ts.tv_nsec : ℚ) < 1000000000 := by exact_mod_cast hn2
  have hsec : binary64 (ts.tv_sec : ℚ) = ts.tv_sec :=
    binary64_intCast _ (by rw [abs_lt]; constructor <;> linarith)
  have hnsec : binary64 (ts.tv_nsec : ℚ) = ts.tv_nsec :=
    binary64_intCast _ (by rw [abs_lt]; constructor <;> linarith)
  have hq0 : (0 : ℚ) ≤ (ts.tv_nsec : ℚ) / NANO_SECONDS_PER_SECOND := by
    unfold NANO_SECONDS_PER_SECOND; positivity
  have hq1 : (ts.tv_nsec : ℚ) / NANO_SECONDS_PER_SECOND ≤ 1 := by
    unfold NANO_SECONDS_PER_SECOND
    rw [div_le_one (by norm_num)]; linarith
  have hqa : |(ts.tv_nsec : ℚ) / NANO_SECONDS_PER_SECOND| < 2 ^ 53 := by
    rw [abs_of_nonneg hq0]; linarith
  have hf0 : (0 : ℚ) ≤ binary64 ((ts.tv_nsec : ℚ) / NANO_SECONDS_PER_SECOND) := by
    have := le_binary64 _ 0 hqa (by simpa using hq0)
    simpa using this
  have hf1 : binary64 ((ts.tv_nsec : ℚ) / NANO_SECONDS_PER_SECOND) ≤ 1 := by
    have := binary64_le _ 1 hqa (by simpa using hq1)
    simpa using this
  unfold timespecDouble
  rw [hsec, hnsec]
  have hya : |(ts.tv_sec : ℚ) + binary64 ((ts.tv_nsec : ℚ) / NANO_SECONDS_PER_SECOND)| < 2 ^ 53 := by
    rw [abs_lt]; constructor <;> linarith
  constructor
  · exact le_binary64 _ _ hya (by linarith)
  · have := binary64_le _ (ts.tv_sec + 1) hya (by push_cast; linarith)
    simpa using this

theorem timespecDouble_whole (ts : Timespec)
    (hs1 : -2 ^ 53 < ts.tv_sec) (hs2 : ts.tv_sec < 2 ^ 53) (hn : ts.tv_nsec = 0) :
    timespecDouble ts = ts.tv_sec := by
  have hsec : binary64 (ts.tv_sec : ℚ) = ts.tv_sec :=
    binary64_intCast _ (by
      rw [abs_lt]
      constructor
      · exact_mod_cast hs1
      · exact_mod_cast hs2)
  have hz : binary64 (0 : ℚ) = 0 := by simp [binary64]
  unfold timespecDouble
  rw [hn, hsec]
  simp only [Int.cast_zero, hz, zero_div, add_zero]
  exact hsec

theorem timespecDouble_half : timespecDouble ⟨1, 500000000⟩ = 3 / 2 := by
  have h1 : binary64 ((1 : Int) : ℚ) = (1 : Int) := binary64_intCast 1 (by norm_num)
  have h2 : binary64 ((500000000 : Int) : ℚ) = (500000000 : Int) :=
    binary64_intCast 500000000 (by norm_num [abs_lt])
  have h3 : binary64 (1 / 2 : ℚ) = 1 / 2 := by
    rw [binary64_cert (1 / 2) (-1) (2 ^ 52) (by norm_num [abs_of_pos])
      (by norm_num [abs_of_pos]) (by norm_num) (by norm_num)]
    norm_num
  have h4 : binary64 (3 / 2 : ℚ) = 3 / 2 := by
    rw [binary64_cert (3 / 2) 0 (3 * 2 ^ 51) (by norm_num [abs_of_pos])
      (by norm_num [abs_of_pos]) (by norm_num) (by norm_num)]
    norm_num
  unfold timespecDouble NANO_SECONDS_PER_SECOND
  rw [h1, h2]
  norm_num
  rw [h3]
  norm_num
  exact h4

theorem timespecDouble_rounds_up :
    timespecDouble ⟨1700000000, 999999999⟩ = 1700000001 := by
  have h1 : binary64 ((1700000000 : Int) : ℚ) = (1700000000 : Int) :=
    binary64_intCast 1700000000 (by norm_num [abs_lt])
  have h2 : binary64 ((999999999 : Int) : ℚ) = (999999999 : Int) :=
    binary64_intCast 999999999 (by norm_num [abs_lt])
  have h3 : binary64 (999999999 / 1000000000 : ℚ) = 9007199245733793 * 2 ^ (-53 : Int) := by
    rw [binary64_cert (999999999 / 1000000000) (-1) 9007199245733793
      (by norm_num [abs_of_pos]) (by norm_num [abs_of_pos]) (by norm_num)
      (by norm_num [abs_lt])]
    norm_num
  have h4 : binary64 (1700000000 + 9007199245733793 * 2 ^ (-53 : Int) : ℚ) = 1700000001 := by
    rw [binary64_cert _ 30 (1700000001 * 2 ^ 22) (by norm_num [abs_of_pos])
      (by norm_num [abs_of_pos]) (by norm_num) (by norm_num [abs_lt])]
    norm_num
  unfold timespecDouble NANO_SECONDS_PER_SECOND
  rw [h1, h2]
  push_cast
  rw [h3, h4]

theorem toLuaInteger_three_halves : toLuaInteger (3 / 2) = 1 := by
  have hn : ((3 : ℚ) / 2).num = 3 := by
    have := @Rat.num_div_eq_of_coprime 3 2 (by norm_num) (by decide)
    simpa using this
  have hd : ((((3 : ℚ) / 2).den : Nat) : Int) = 2 := by
    have := @Rat.den_div_eq_of_coprime 3 2 (by norm_num) (by decide)
    simpa using this
  rw [toLuaInteger, hn, hd]
  decide

/-- The timestamp `lua_pushinteger` stores for a time within 2^52 seconds of
the epoch with a nanosecond part below 10^9: the seconds, or the seconds plus
one (when the sum rounds up to the next integer in binary64 or the seconds
are negative), and the seconds when the nanosecond part is zero. -/
theorem storedTimestamp_bounds (ts : Timespec)
    (hs1 : -2 ^ 52 ≤ ts.tv_sec) (hs2 : ts.tv_sec < 2 ^ 52)
    (hn1 : 0 ≤ ts.tv_nsec) (hn2 : ts.tv_nsec < 1000000000) :
    (toLuaInteger (timespecDouble ts) = ts.tv_sec ∨
      toLuaInteger (timespecDouble ts) = ts.tv_sec + 1) ∧
    (ts.tv_nsec = 0 → toLuaInteger (timespecDouble ts) = ts.tv_sec) := by
  obtain ⟨h1, h2⟩ := timespecDouble_between ts hs1 hs2 hn1 hn2
  refine ⟨toLuaInteger_between _ _ h1 h2, ?_⟩
  intro hn
  rw [timespecDouble_whole ts (by omega) (by omega) hn, toLuaInteger_intCast]

/-- The string `PushFileAttributes` stores as `type` names the file type that
the mode bits encode, and is `Other` when they encode none of the seven. -/
theorem fileType_matches_mode (m : Nat) :
    (fileType m = "BlockDevice" ↔ m &&& S_IFMT = S_IFBLK) ∧
    (fileType m = "CharacterDevice" ↔ m &&& S_IFMT = S_IFCHR) ∧
    (fileType m = "Directory" ↔ m &&& S_IFMT = S_IFDIR) ∧
    (fileType m = "NamedPipe" ↔ m &&& S_IFMT = S_IFIFO) ∧
    (fileType m = "RegularFile" ↔ m &&& S_IFMT = S_IFREG) ∧
    (fileType m = "SymbolicLink" ↔ m &&& S_IFMT = S_IFLNK) ∧
    (fileType m = "Socket" ↔ m &&& S_IFMT = S_IFSOCK) ∧
    (fileType m = "Other" ↔
      m &&& S_IFMT ≠ S_IFBLK ∧ m &&& S_IFMT ≠ S_IFCHR ∧ m &&& S_IFMT ≠ S_IFDIR ∧
      m &&& S_IFMT ≠ S_IFIFO ∧ m &&& S_IFMT ≠ S_IFREG ∧ m &&& S_IFMT ≠ S_IFLNK ∧
      m &&& S_IFMT ≠ S_IFSOCK) := by
  unfold fileType S_ISBLK S_ISCHR S_ISDIR S_ISFIFO S_ISREG S_ISLNK S_ISSOCK
  simp only [beq_iff_eq]
  generalize m &&& S_IFMT = k
  by_cases h1 : k = S_IFBLK
  · subst h1; decide
  by_cases h2 : k = S_IFCHR
  · subst h2; decide
  by_cases h3 : k = S_IFDIR
  · subst h3; decide
  by_cases h4 : k = S_IFIFO
  · subst h4; decide
  by_cases h5 : k = S_IFREG
  · subst h5; decide
  by_cases h6 : k = S_IFLNK
  · subst h6; decide
  by_cases h7 : k = S_IFSOCK
  · subst h7; decide
  simp [h1, h2, h3, h4, h5, h6, h7]

theorem PushFileAttributes_fileStat :
    PushFileAttributes fileStat =
      { type := "RegularFile", modificationTime := 1, changeTime := 2, creationTime := 3,
        size := 12 } := by
  have hm : toLuaInteger (timespecDouble ⟨1, 500000000⟩) = 1 := by
    rw [timespecDouble_half, toLuaInteger_three_halves]
  have hc : toLuaInteger (timespecDouble ⟨2, 0⟩) = 2 := by
    rw [timespecDouble_whole ⟨2, 0⟩ (by norm_num) (by norm_num) rfl]
    exact toLuaInteger_intCast 2
  have hb : toLuaInteger (timespecDouble ⟨3, 0⟩) = 3 := by
    rw [timespecDouble_whole ⟨3, 0⟩ (by norm_num) (by norm_num) rfl]
    exact toLuaInteger_intCast 3
  have ht : fileType 0o100644 = "RegularFile" := by decide
  simp only [PushFileAttributes, fileStat, hm, hc, hb, ht]

/-- In binary64 the sum 1700000000 + 999999999 / 1e9 rounds to 1700000001, and
that is the modification time `PushFileAttributes` stores. -/
theorem PushFileAttributes_rounds_up :
    (PushFileAttributes lateStat).modificationTime = 1700000001 := by
  show toLuaInteger (timespecDouble ⟨1700000000, 999999999⟩) = 1700000001
  rw [timespecDouble_rounds_up]
  exact toLuaInteger_intCast 1700000001


/-! ## One call of the iterator follows `pullSpec` -/

theorem fts_read_entry (w : World) (sp : FTS) (e : FTSENT) (n s : RawWalk)
    (h : w.state.ftsp = some sp) (hp : sp.pending = .entry e n s) :
    fts_read w =
      (some e, { state := { w.state with
                   ftsp := some { fts_cur := some e, skipSet := false, next := n, skipped := s } }
                 errno := w.errno
                 calls := w.calls ++ [Call.fts_read] }) := by
  simp [fts_read, h, hp]

theorem fts_read_done (w : World) (sp : FTS) (err : Nat)
    (h : w.state.ftsp = some sp) (hp : sp.pending = .done err) :
    fts_read w =
      (none, { state := { w.state with
                 ftsp := some { fts_cur := none, skipSet := false,
                                next := .done err, skipped := .done err } }
               errno := err
               calls := w.calls ++ [Call.fts_read] }) := by
  simp [fts_read, h, hp]

theorem start_none (fuel : Nat) (w : World) :
    DirectoryIteratorNext.start fuel none w =
      (pushEnd w.state.iterationFlags w.errno,
       { state := { ftsp := none, currentEntry := none, iterationFlags := w.state.iterationFlags }
         errno := w.errno
         calls := w.calls ++ [Call.fts_close] }) := by
  unfold DirectoryIteratorNext.start
  simp [setCurrentEntry, clearHandle, fts_close]

theorem start_entry (fuel : Nat) (w : World) (e : FTSENT) (sp : FTS)
    (h : w.state.ftsp = some sp) (hcur : sp.fts_cur = some e) (he : e.fts_info ≠ FTS_DP) :
    DirectoryIteratorNext.start fuel (some e) w =
      (pushEntry w.state.iterationFlags w.errno e,
       { state := { ftsp := some { sp with skipSet := sp.skipSet ||
                        (decide (e.fts_info = FTS_D) && !iterateSubdirectories w.state.iterationFlags) }
                    currentEntry := some e
                    iterationFlags := w.state.iterationFlags }
         errno := w.errno
         calls := w.calls ++
           (if (decide (e.fts_info = FTS_D) && !iterateSubdirectories w.state.iterationFlags) = true
            then [Call.fts_set e] else []) }) := by
  unfold DirectoryIteratorNext.start
  by_cases hd : e.fts_info = FTS_D
  · by_cases hr : iterateSubdirectories w.state.iterationFlags = true
    · simp [hd, hr, setCurrentEntry, h]
    · simp [hd, hr, setCurrentEntry, fts_set, h, hcur]
  · simp [hd, he, setCurrentEntry, h]

theorem loop_eq_pullSpec (walk : RawWalk) :
    ∀ (fuel : Nat) (w : World) (sp : FTS), w.state.ftsp = some sp → sp.pending = walk →
      walk.depth + 1 ≤ fuel →
      DirectoryIteratorNext.loop fuel w =
        pullSpec w.state.iterationFlags w.errno walk w.calls := by
  induction walk with
  | done err =>
    intro fuel w sp h hp hfuel
    obtain ⟨f, rfl⟩ : ∃ f, fuel = f + 1 := ⟨fuel - 1, by omega⟩
    unfold DirectoryIteratorNext.loop
    simp [fts_read_done w sp err h hp, start_none, pullSpec]
  | entry e n s ihn _ =>
    intro fuel w sp h hp hfuel
    obtain ⟨f, rfl⟩ : ∃ f, fuel = f + 1 := ⟨fuel - 1, by omega⟩
    unfold DirectoryIteratorNext.loop
    by_cases he : e.fts_info = FTS_DP
    · have hd : n.depth + 1 ≤ f := by
        simp only [RawWalk.depth] at hfuel
        have := le_max_left n.depth s.depth
        omega
      have := ihn f
        { state := { w.state with
            ftsp := some { fts_cur := some e, skipSet := false, next := n, skipped := s } }
          errno := w.errno
          calls := w.calls ++ [Call.fts_read] }
        { fts_cur := some e, skipSet := false, next := n, skipped := s } rfl
        (by simp [FTS.pending]) hd
      simp [fts_read_entry w sp e n s h hp, he, pullSpec, this]
    · have hs := start_entry f
        { state := { w.state with
            ftsp := some { fts_cur := some e, skipSet := false, next := n, skipped := s } }
          errno := w.errno
          calls := w.calls ++ [Call.fts_read] } e
        { fts_cur := some e, skipSet := false, next := n, skipped := s } rfl rfl he
      simp [fts_read_entry w sp e n s h hp, he, pullSpec, hs]

/-- A call of the iterator on a held handle is `pullSpec` of the pending walk:
the jump bound of the embedding is never reached. -/
theorem DirectoryIteratorNext_eq_pullSpec (w : World) (sp : FTS) (h : w.state.ftsp = some sp) :
    DirectoryIteratorNext w =
      pullSpec w.state.iterationFlags w.errno sp.pending w.calls := by
  unfold DirectoryIteratorNext
  simp only [h]
  cases hp : sp.pending with
  | done err =>
    simp [fts_read_done w sp err h hp, start_none, pullSpec]
  | entry e n s =>
    by_cases he : e.fts_info = FTS_DP
    · have hl := loop_eq_pullSpec n (max n.depth s.depth + 1 + 1)
        { state := { ftsp := some { fts_cur := some e, skipSet := false, next := n, skipped := s }
                     currentEntry := none
                     iterationFlags := w.state.iterationFlags }
          errno := w.errno
          calls := w.calls ++ [Call.fts_read] }
        { fts_cur := some e, skipSet := false, next := n, skipped := s } rfl
        (by simp [FTS.pending]) (by have := le_max_left n.depth s.depth; omega)
      unfold DirectoryIteratorNext.start
      simp [fts_read_entry w sp e n s h hp, he, pullSpec, RawWalk.depth, setCurrentEntry]
      simpa using hl
    · have hs := start_entry (RawWalk.depth (.entry e n s) + 2)
        { state := { w.state with
            ftsp := some { fts_cur := some e, skipSet := false, next := n, skipped := s } }
          errno := w.errno
          calls := w.calls ++ [Call.fts_read] } e
        { fts_cur := some e, skipSet := false, next := n, skipped := s } rfl rfl he
      simp [fts_read_entry w sp e n s h hp, he, pullSpec, hs]

/-- The jump bound of the embedding is immaterial: any larger bound gives the
same result. -/
theorem DirectoryIteratorNext_fuel (w : World) (sp : FTS) (h : w.state.ftsp = some sp)
    (fuel : Nat) (hfuel : sp.pending.depth + 2 ≤ fuel) :
    DirectoryIteratorNext.start fuel (fts_read w).1 (fts_read w).2 = DirectoryIteratorNext w := by
  rw [DirectoryIteratorNext_eq_pullSpec w sp h]
  cases hp : sp.pending with
  | done err =>
    simp [fts_read_done w sp err h hp, start_none, pullSpec]
  | entry e n s =>
    by_cases he : e.fts_info = FTS_DP
    · obtain ⟨f, rfl⟩ : ∃ f, fuel = f + 1 := ⟨fuel - 1, by omega⟩
      have hl := loop_eq_pullSpec n f
        { state := { ftsp := some { fts_cur := some e, skipSet := false, next := n, skipped := s }
                     currentEntry := none
                     iterationFlags := w.state.iterationFlags }
          errno := w.errno
          calls := w.calls ++ [Call.fts_read] }
        { fts_cur := some e, skipSet := false, next := n, skipped := s } rfl
        (by simp [FTS.pending])
        (by rw [hp] at hfuel; simp only [RawWalk.depth] at hfuel
            have := le_max_left n.depth s.depth; omega)
      unfold DirectoryIteratorNext.start
      simp [fts_read_entry w sp e n s h hp, he, pullSpec, setCurrentEntry]
      simpa using hl
    · have hs := start_entry fuel
        { state := { w.state with
            ftsp := some { fts_cur := some e, skipSet := false, next := n, skipped := s } }
          errno := w.errno
          calls := w.calls ++ [Call.fts_read] } e
        { fts_cur := some e, skipSet := false, next := n, skipped := s } rfl rfl he
      simp [fts_read_entry w sp e n s h hp, he, pullSpec, hs]



/-! ## Consequences for a call that passes over post-order entries -/

theorem pullSpec_prepend (flags errno : Nat) (dps : List FTSENT) (t : RawWalk)
    (hdps : ∀ d ∈ dps, d.fts_info = FTS_DP) :
    ∀ calls : List Call,
      pullSpec flags errno (RawWalk.prepend dps t) calls =
        pullSpec flags errno t (calls ++ List.replicate dps.length Call.fts_read) := by
  induction dps with
  | nil => intro calls; simp [RawWalk.prepend]
  | cons d ds ih =>
    intro calls
    have hd : d.fts_info = FTS_DP := hdps d (by simp)
    have hds : ∀ x ∈ ds, x.fts_info = FTS_DP := fun x hx => hdps x (by simp [hx])
    simp [RawWalk.prepend, pullSpec, hd, ih hds, List.replicate_succ]

theorem pullSpec_outcome (flags errno : Nat) (walk : RawWalk) :
    ∀ calls : List Call,
      (∃ err, (pullSpec flags errno walk calls).1 = pushEnd flags err ∧
          (pullSpec flags errno walk calls).2.state.ftsp = none ∧
          (pullSpec flags errno walk calls).2.state.currentEntry = none) ∨
      (∃ e, e.fts_info ≠ FTS_DP ∧
          (pullSpec flags errno walk calls).1 = pushEntry flags errno e ∧
          (pullSpec flags errno walk calls).2.state.currentEntry = some e ∧
          ((pullSpec flags errno walk calls).2.state.ftsp.map fun sp => sp.fts_cur) =
            some (some e)) := by
  induction walk with
  | done err => intro calls; left; exact ⟨err, by simp [pullSpec]⟩
  | entry e n s ihn _ =>
    intro calls
    by_cases he : e.fts_info = FTS_DP
    · simpa [pullSpec, he] using ihn (calls ++ [Call.fts_read])
    · right; exact ⟨e, he, by simp [pullSpec, he]⟩

/-- C1: a call of the iterator on a held handle never yields a post-order
directory entry. When the pending raw entries are post-order entries `dps`
followed by a walk `t`, the call behaves exactly as a call made after `dps` had
been read (only the reads of `dps` are added to the call log): it returns the
first entry of `t` when that is not a post-order entry, or ends the sequence
when `t` is exhausted. Whatever the walk, the call either ends the sequence
with `currentEntry` cleared or returns an entry that is not a post-order entry
and is the new `currentEntry`. -/
theorem DirectoryIteratorNext_skips_postorder (w : World) (sp : FTS) (dps : List FTSENT)
    (t : RawWalk) (h : w.state.ftsp = some sp) (hp : sp.pending = RawWalk.prepend dps t)
    (hdps : ∀ d ∈ dps, d.fts_info = FTS_DP) :
    DirectoryIteratorNext w =
        DirectoryIteratorNext
          { state := { ftsp := some { fts_cur := dps.getLast?, skipSet := false,
                                      next := t, skipped := t }
                       currentEntry := none
                       iterationFlags := w.state.iterationFlags }
            errno := w.errno
            calls := w.calls ++ List.replicate dps.length Call.fts_read } ∧
    (∀ e n s, t = .entry e n s → e.fts_info ≠ FTS_DP →
        (DirectoryIteratorNext w).1 = pushEntry w.state.iterationFlags w.errno e ∧
        (DirectoryIteratorNext w).2.state.currentEntry = some e ∧
        (DirectoryIteratorNext w).2.state.ftsp =
          some { fts_cur := some e
                 skipSet := decide (e.fts_info = FTS_D) &&
                   !iterateSubdirectories w.state.iterationFlags
                 next := n, skipped := s }) ∧
    (∀ err, t = .done err →
        (DirectoryIteratorNext w).1 = pushEnd w.state.iterationFlags err ∧
        (DirectoryIteratorNext w).2.state.currentEntry = none ∧
        (DirectoryIteratorNext w).2.state.ftsp = none) ∧
    ((isEndOfSequence (DirectoryIteratorNext w).1 = true ∧
        (DirectoryIteratorNext w).2.state.currentEntry = none) ∨
      ∃ e, e.fts_info ≠ FTS_DP ∧
        (DirectoryIteratorNext w).1 = pushEntry w.state.iterationFlags w.errno e ∧
        firstValue (DirectoryIteratorNext w).1 = LuaValue.string e.fts_path ∧
        (DirectoryIteratorNext w).2.state.currentEntry = some e) := by
  have hw := DirectoryIteratorNext_eq_pullSpec w sp h
  rw [hp, pullSpec_prepend _ _ dps t hdps] at hw
  refine ⟨?_, ?_, ?_, ?_⟩
  · rw [hw, DirectoryIteratorNext_eq_pullSpec _ _ rfl]
    simp [FTS.pending]
  · intro e n s ht he
    subst ht
    simp [hw, pullSpec, he]
  · intro err ht
    subst ht
    simp [hw, pullSpec]
  · rw [hw]
    rcases pullSpec_outcome w.state.iterationFlags w.errno t
      (w.calls ++ List.replicate dps.length Call.fts_read) with ⟨err, h1, _, h3⟩ | ⟨e, he, h1, h2, _⟩
    · left; exact ⟨by simp [h1, pushEnd, isEndOfSequence, firstValue], h3⟩
    · right; exact ⟨e, he, h1, by simp [h1, pushEntry, firstValue], h2⟩


/-- Witness for C1: after the post-order entry of `root/sub` the call returns
`root/c.txt`. -/
theorem DirectoryIteratorNext_skips_postorder_witness :
    (∀ d ∈ [subLeave], d.fts_info = FTS_DP) ∧
    (DirectoryIteratorNext (heldWorld 1 (RawWalk.ofStream [subLeave, cFile] 0))).1 =
      [LuaValue.string "root/c.txt"] ∧
    (DirectoryIteratorNext (heldWorld 1 (RawWalk.ofStream [subLeave, cFile] 0))).2.state.currentEntry
      = some cFile :=
  ⟨by decide,
   ((DirectoryIteratorNext_skips_postorder (heldWorld 1 (RawWalk.ofStream [subLeave, cFile] 0))
      (heldHandle (RawWalk.ofStream [subLeave, cFile] 0)) [subLeave]
      (RawWalk.ofStream [cFile] 0) rfl rfl (by decide)).2.1 cFile (.done 0) (.done 0) rfl
      (by decide)).1,
   ((DirectoryIteratorNext_skips_postorder (heldWorld 1 (RawWalk.ofStream [subLeave, cFile] 0))
      (heldHandle (RawWalk.ofStream [subLeave, cFile] 0)) [subLeave]
      (RawWalk.ofStream [cFile] 0) rfl rfl (by decide)).2.1 cFile (.done 0) (.done 0) rfl
      (by decide)).2.1⟩

/-! ## Pruning, failures and the end of the sequence -/

theorem skipCalls_append (xs ys : List Call) :
    skipCalls (xs ++ ys) = skipCalls xs ++ skipCalls ys := by
  induction xs with
  | nil => simp [skipCalls]
  | cons c cs ih => cases c <;> simp [skipCalls, ih]

theorem skipCalls_replicate_read (k : Nat) :
    skipCalls (List.replicate k Call.fts_read) = [] := by
  induction k with
  | zero => simp [skipCalls]
  | succ k ih => simp [List.replicate_succ, skipCalls, ih]

theorem pullSpec_skipCalls (flags errno : Nat) (hr : iterateSubdirectories flags = true)
    (walk : RawWalk) :
    ∀ calls : List Call,
      skipCalls (pullSpec flags errno walk calls).2.calls = skipCalls calls := by
  induction walk with
  | done err => intro calls; simp [pullSpec, skipCalls_append, skipCalls]
  | entry e n s ihn _ =>
    intro calls
    by_cases he : e.fts_info = FTS_DP
    · simp [pullSpec, he, ihn, skipCalls_append, skipCalls]
    · simp [pullSpec, he, hr, skipCalls_append, skipCalls]

/-- C2: when `iterateSubdirectories` is off, a call of the iterator that reaches
a pre-order directory entry (directly or after post-order entries) calls
`fts_set` on it exactly once, after its reads, so that the walk continues with
the skipped branch, and still returns the directory's path once; when
`iterateSubdirectories` is on, no call of the iterator calls `fts_set`. -/
theorem DirectoryIteratorNext_prunes_directories (w : World) (sp : FTS) (dps : List FTSENT)
    (e : FTSENT) (n s : RawWalk) (h : w.state.ftsp = some sp)
    (hp : sp.pending = RawWalk.prepend dps (.entry e n s))
    (hdps : ∀ d ∈ dps, d.fts_info = FTS_DP) (he : e.fts_info = FTS_D) :
    (iterateSubdirectories w.state.iterationFlags = false →
      (DirectoryIteratorNext w).2.calls =
          w.calls ++ List.replicate (dps.length + 1) Call.fts_read ++ [Call.fts_set e] ∧
      skipCalls (DirectoryIteratorNext w).2.calls = skipCalls w.calls ++ [e] ∧
      ((DirectoryIteratorNext w).2.state.ftsp.map FTS.pending) = some s ∧
      (DirectoryIteratorNext w).1 =
        LuaValue.string e.fts_path ::
          (if includeFileAttributes w.state.iterationFlags
            then [LuaValue.table (PushFileAttributes e.fts_statp)] else []) ∧
      (DirectoryIteratorNext w).1.count (LuaValue.string e.fts_path) = 1) ∧
    (∀ v : World, iterateSubdirectories v.state.iterationFlags = true →
      skipCalls (DirectoryIteratorNext v).2.calls = skipCalls v.calls) := by
  have hw := DirectoryIteratorNext_eq_pullSpec w sp h
  rw [hp, pullSpec_prepend _ _ dps _ hdps] at hw
  constructor
  · intro hr
    have hres : (DirectoryIteratorNext w).1 =
        LuaValue.string e.fts_path ::
          (if includeFileAttributes w.state.iterationFlags
            then [LuaValue.table (PushFileAttributes e.fts_statp)] else []) := by
      simp [hw, pullSpec, he, pushEntry]
    refine ⟨?_, ?_, ?_, hres, ?_⟩
    · simp [hw, pullSpec, he, hr, List.replicate_succ', List.append_assoc]
    · simp [hw, pullSpec, he, hr, skipCalls_append, skipCalls_replicate_read, skipCalls]
    · simp [hw, pullSpec, he, hr, FTS.pending]
    · rw [hres]
      by_cases ha : includeFileAttributes w.state.iterationFlags = true <;>
        simp [ha, List.count_cons]
  · intro v hv
    cases hf : v.state.ftsp with
    | none => simp [DirectoryIteratorNext, hf]
    | some vp =>
      rw [DirectoryIteratorNext_eq_pullSpec v vp hf]
      exact pullSpec_skipCalls _ _ hv _ _

/-- Witness for C2: without recursion the call that reaches `root/sub` after a
post-order entry logs two reads and one `fts_set` on it and returns its path. -/
theorem DirectoryIteratorNext_prunes_directories_witness :
    (∀ d ∈ [subLeave], d.fts_info = FTS_DP) ∧ subEnter.fts_info = FTS_D ∧
    (DirectoryIteratorNext
        (heldWorld 0 (RawWalk.prepend [subLeave] (.entry subEnter (.done 0) (.done 5))))).2.calls =
      [Call.fts_read, Call.fts_read, Call.fts_set subEnter] ∧
    (DirectoryIteratorNext
        (heldWorld 0 (RawWalk.prepend [subLeave] (.entry subEnter (.done 0) (.done 5))))).1 =
      [LuaValue.string "root/sub"] :=
  ⟨by decide, rfl,
   ((DirectoryIteratorNext_prunes_directories
      (heldWorld 0 (RawWalk.prepend [subLeave] (.entry subEnter (.done 0) (.done 5))))
      (heldHandle (RawWalk.prepend [subLeave] (.entry subEnter (.done 0) (.done 5))))
      [subLeave] subEnter (.done 0) (.done 5) rfl rfl (by decide) rfl).1 rfl).1,
   ((DirectoryIteratorNext_prunes_directories
      (heldWorld 0 (RawWalk.prepend [subLeave] (.entry subEnter (.done 0) (.done 5))))
      (heldHandle (RawWalk.prepend [subLeave] (.entry subEnter (.done 0) (.done 5))))
      [subLeave] subEnter (.done 0) (.done 5) rfl rfl (by decide) rfl).1 rfl).2.2.2.1⟩

/-- C4 fails on the code: with `includeFileAttributes` set, the call that
reaches the unreadable directory `root/locked` (`FTS_DNR`) returns its path and
an attribute table, and no error message. The same entry is returned with an
error message when attributes are not requested, and a no-status entry
(`FTS_NS`) is returned with one when they are. -/
theorem DirectoryIteratorNext_unreadable_with_attributes_no_error :
    lockedDir.fts_info = FTS_DNR ∧
    includeFileAttributes (heldWorld 2 (RawWalk.ofStream [lockedDir] 0)).state.iterationFlags
      = true ∧
    (DirectoryIteratorNext (heldWorld 2 (RawWalk.ofStream [lockedDir] 0))).1 =
      [LuaValue.string "root/locked", LuaValue.table (PushFileAttributes dirStat)] ∧
    (¬ ∃ v ∈ (DirectoryIteratorNext (heldWorld 2 (RawWalk.ofStream [lockedDir] 0))).1,
        v.isErrorMessage = true) ∧
    (DirectoryIteratorNext (heldWorld 0 (RawWalk.ofStream [lockedDir] 0))).1 =
      [LuaValue.string "root/locked",
       LuaValue.fstring "Could not read %s: %s"
        [FormatArg.str "root/locked", FormatArg.strerror 13]] ∧
    goneEntry.fts_info = FTS_NS ∧
    (DirectoryIteratorNext (heldWorld 2 (RawWalk.ofStream [goneEntry] 0))).1.map
        LuaValue.isErrorMessage = [false, false, true] := by
  have hres : (DirectoryIteratorNext (heldWorld 2 (RawWalk.ofStream [lockedDir] 0))).1 =
      [LuaValue.string "root/locked", LuaValue.table (PushFileAttributes dirStat)] := rfl
  refine ⟨rfl, by decide, hres, ?_, by decide, rfl, by decide⟩
  rw [hres]
  simp [LuaValue.isErrorMessage]

/-- What the call of the iterator that reaches a per-entry failure (directly or
after post-order entries) returns: the entry's path followed, for
`FTS_NS`, by `nil` when attributes are requested and then an error message;
for `FTS_DNR` and `FTS_ERR`, by an error message when attributes are not
requested and by the attribute table of the entry's status, without an error
message, when they are. In every case the handle stays held, the entry becomes
`currentEntry`, and the walk continues after the entry. -/
theorem DirectoryIteratorNext_entry_failure (w : World) (sp : FTS) (dps : List FTSENT)
    (e : FTSENT) (n s : RawWalk) (h : w.state.ftsp = some sp)
    (hp : sp.pending = RawWalk.prepend dps (.entry e n s))
    (hdps : ∀ d ∈ dps, d.fts_info = FTS_DP)
    (he : e.fts_info = FTS_NS ∨ e.fts_info = FTS_DNR ∨ e.fts_info = FTS_ERR) :
    (e.fts_info = FTS_NS →
      (DirectoryIteratorNext w).1 =
        [LuaValue.string e.fts_path] ++
        (if includeFileAttributes w.state.iterationFlags then [LuaValue.nil] else []) ++
        [LuaValue.fstring "Could not get file information for %s: %s"
          [FormatArg.str e.fts_path, FormatArg.strerror w.errno]]) ∧
    (e.fts_info ≠ FTS_NS → includeFileAttributes w.state.iterationFlags = false →
      (DirectoryIteratorNext w).1 =
        [LuaValue.string e.fts_path,
         LuaValue.fstring "Could not read %s: %s"
          [FormatArg.str e.fts_path, FormatArg.strerror e.fts_errno]]) ∧
    (e.fts_info ≠ FTS_NS → includeFileAttributes w.state.iterationFlags = true →
      (DirectoryIteratorNext w).1 =
        [LuaValue.string e.fts_path, LuaValue.table (PushFileAttributes e.fts_statp)]) ∧
    (DirectoryIteratorNext w).2.state.ftsp =
      some { fts_cur := some e, skipSet := false, next := n, skipped := s } ∧
    (DirectoryIteratorNext w).2.state.currentEntry = some e ∧
    DirectoryIteratorNext (DirectoryIteratorNext w).2 =
      pullSpec w.state.iterationFlags w.errno n (DirectoryIteratorNext w).2.calls := by
  have hw := DirectoryIteratorNext_eq_pullSpec w sp h
  rw [hp, pullSpec_prepend _ _ dps _ hdps] at hw
  have hDP : e.fts_info ≠ FTS_DP := by rcases he with h1 | h1 | h1 <;> simp [h1]
  have hD : e.fts_info ≠ FTS_D := by rcases he with h1 | h1 | h1 <;> simp [h1]
  have hst : (DirectoryIteratorNext w).2.state.ftsp =
      some { fts_cur := some e, skipSet := false, next := n, skipped := s } := by
    simp [hw, pullSpec, hDP, hD]
  refine ⟨?_, ?_, ?_, hst, ?_, ?_⟩
  · intro hns
    simp [hw, pullSpec, hDP, pushEntry, hns]
  · intro hns ha
    have : e.fts_info = FTS_DNR ∨ e.fts_info = FTS_ERR := by
      rcases he with h1 | h1 | h1
      · exact absurd h1 hns
      · exact Or.inl h1
      · exact Or.inr h1
    simp [hw, pullSpec, hDP, pushEntry, hns, ha, this]
  · intro hns ha
    simp [hw, pullSpec, hDP, pushEntry, hns, ha]
  · simp [hw, pullSpec, hDP]
  · rw [DirectoryIteratorNext_eq_pullSpec _ _ hst]
    simp [hw, pullSpec, hDP, FTS.pending]

/-- An instance: without attributes the unreadable directory `root/locked` is
returned with an error message and the handle stays held. -/
theorem DirectoryIteratorNext_entry_failure_witness :
    (∀ d ∈ ([] : List FTSENT), d.fts_info = FTS_DP) ∧
    (lockedDir.fts_info = FTS_NS ∨ lockedDir.fts_info = FTS_DNR ∨
      lockedDir.fts_info = FTS_ERR) ∧
    (DirectoryIteratorNext (heldWorld 1 (RawWalk.ofStream [lockedDir, cFile] 0))).1 =
      [LuaValue.string "root/locked",
       LuaValue.fstring "Could not read %s: %s"
        [FormatArg.str "root/locked", FormatArg.strerror 13]] ∧
    (DirectoryIteratorNext (heldWorld 1 (RawWalk.ofStream [lockedDir, cFile] 0))).2.state.ftsp =
      some { fts_cur := some lockedDir, skipSet := false,
             next := RawWalk.ofStream [cFile] 0, skipped := RawWalk.ofStream [cFile] 0 } :=
  ⟨by decide, by decide,
   (DirectoryIteratorNext_entry_failure (heldWorld 1 (RawWalk.ofStream [lockedDir, cFile] 0))
      (heldHandle (RawWalk.ofStream [lockedDir, cFile] 0)) [] lockedDir
      (RawWalk.ofStream [cFile] 0) (RawWalk.ofStream [cFile] 0) rfl rfl (by decide)
      (by decide)).2.1 (by decide) (by decide),
   (DirectoryIteratorNext_entry_failure (heldWorld 1 (RawWalk.ofStream [lockedDir, cFile] 0))
      (heldHandle (RawWalk.ofStream [lockedDir, cFile] 0)) [] lockedDir
      (RawWalk.ofStream [cFile] 0) (RawWalk.ofStream [cFile] 0) rfl rfl (by decide)
      (by decide)).2.2.2.1⟩

/-- C5: a call of the iterator on a held handle that finds the walk exhausted,
directly or after post-order entries, returns `nil`, then a second `nil`
exactly when attributes are requested, then an error message exactly when the
`errno` left by the last `fts_read` is not zero; it closes the handle once
and leaves the iterator with no handle and no current entry. -/
theorem DirectoryIteratorNext_exhausted (w : World) (sp : FTS) (dps : List FTSENT) (err : Nat)
    (h : w.state.ftsp = some sp) (hp : sp.pending = RawWalk.prepend dps (.done err))
    (hdps : ∀ d ∈ dps, d.fts_info = FTS_DP) :
    (DirectoryIteratorNext w).1 =
      [LuaValue.nil] ++
      (if includeFileAttributes w.state.iterationFlags then [LuaValue.nil] else []) ++
      (if err ≠ 0 then [LuaValue.fstring "An error occured: %s" [FormatArg.strerror err]]
        else []) ∧
    (DirectoryIteratorNext w).2.errno = err ∧
    (DirectoryIteratorNext w).2.state =
      { ftsp := none, currentEntry := none, iterationFlags := w.state.iterationFlags } ∧
    (DirectoryIteratorNext w).2.calls =
      w.calls ++ List.replicate (dps.length + 1) Call.fts_read ++ [Call.fts_close] := by
  have hw := DirectoryIteratorNext_eq_pullSpec w sp h
  rw [hp, pullSpec_prepend _ _ dps _ hdps] at hw
  refine ⟨?_, ?_, ?_, ?_⟩
  · simp [hw, pullSpec, pushEnd]
  · simp [hw, pullSpec]
  · simp [hw, pullSpec]
  · simp [hw, pullSpec, List.replicate_succ', List.append_assoc]

/-- Witness for C5: with attributes requested, a walk that ends with `errno` 5
after one post-order entry gives `nil, nil` and an error message. -/
theorem DirectoryIteratorNext_exhausted_witness :
    (∀ d ∈ [subLeave], d.fts_info = FTS_DP) ∧
    (DirectoryIteratorNext (heldWorld 2 (RawWalk.ofStream [subLeave] 5))).1 =
      [LuaValue.nil, LuaValue.nil,
       LuaValue.fstring "An error occured: %s" [FormatArg.strerror 5]] ∧
    (DirectoryIteratorNext (heldWorld 2 (RawWalk.ofStream [subLeave] 5))).2.state =
      { ftsp := none, currentEntry := none, iterationFlags := 2 } :=
  ⟨by decide,
   (DirectoryIteratorNext_exhausted (heldWorld 2 (RawWalk.ofStream [subLeave] 5))
      (heldHandle (RawWalk.ofStream [subLeave] 5)) [subLeave] 5 rfl rfl (by decide)).1,
   (DirectoryIteratorNext_exhausted (heldWorld 2 (RawWalk.ofStream [subLeave] 5))
      (heldHandle (RawWalk.ofStream [subLeave] 5)) [subLeave] 5 rfl rfl (by decide)).2.2.1⟩

theorem run_pulls_closed (w : World) (h : w.state.ftsp = none) (k : Nat) :
    run (List.replicate k Op.pull) w = w := by
  induction k with
  | zero => rfl
  | succ k ih => simp [List.replicate_succ, run, Op.apply, DirectoryIteratorNext, h, ih]

/-- C7: on an iterator whose handle is absent, a call returns no value (the
first value of the call is `nil`, the end of the sequence) and leaves the
world as it was: the handle, the current entry, the flags, `errno` and the log
of `fts` calls are unchanged, so that no raw entry is read; this holds again
after any number of such calls. -/
theorem DirectoryIteratorNext_closed (w : World) (h : w.state.ftsp = none) (k : Nat) :
    DirectoryIteratorNext (run (List.replicate k Op.pull) w) = ([], w) ∧
    isEndOfSequence (DirectoryIteratorNext (run (List.replicate k Op.pull) w)).1 = true ∧
    (run (List.replicate (k + 1) Op.pull) w).state = w.state ∧
    (run (List.replicate (k + 1) Op.pull) w).calls = w.calls := by
  rw [run_pulls_closed w h, run_pulls_closed w h]
  simp [DirectoryIteratorNext, h, isEndOfSequence, firstValue]

/-- Witness for C7: three further calls after the end of a walk. -/
theorem DirectoryIteratorNext_closed_witness :
    (DirectoryIteratorNext (heldWorld 0 (.done 0))).2.state.ftsp = none ∧
    DirectoryIteratorNext
        (run (List.replicate 3 Op.pull) (DirectoryIteratorNext (heldWorld 0 (.done 0))).2) =
      ([], (DirectoryIteratorNext (heldWorld 0 (.done 0))).2) :=
  ⟨rfl, (DirectoryIteratorNext_closed (DirectoryIteratorNext (heldWorld 0 (.done 0))).2 rfl 3).1⟩

theorem pullSpec_no_attribute (flags errno : Nat) (ha : includeFileAttributes flags = false)
    (walk : RawWalk) :
    ∀ calls : List Call,
      (∀ v ∈ (pullSpec flags errno walk calls).1, v.isTable = false) ∧
      (∀ v ∈ (pullSpec flags errno walk calls).1.tail, v.isErrorMessage = true) ∧
      (pullSpec flags errno walk calls).1.length ≤ 2 := by
  induction walk with
  | done err =>
    intro calls
    by_cases he : err = 0 <;>
      simp [pullSpec, pushEnd, ha, he, LuaValue.isTable, LuaValue.isErrorMessage]
  | entry e n s ihn _ =>
    intro calls
    by_cases he : e.fts_info = FTS_DP
    · simpa [pullSpec, he] using ihn (calls ++ [Call.fts_read])
    · by_cases hns : e.fts_info = FTS_NS
      · simp [pullSpec, he, pushEntry, hns, ha, LuaValue.isTable, LuaValue.isErrorMessage]
      · by_cases hd : e.fts_info = FTS_DNR ∨ e.fts_info = FTS_ERR <;>
          simp [pullSpec, he, pushEntry, hns, ha, hd, LuaValue.isTable,
            LuaValue.isErrorMessage]

/-- C10: with `includeFileAttributes` set, a call of the iterator that reaches
(directly or after post-order entries) an entry other than `FTS_NS` returns
the path and, as second value, the table `PushFileAttributes` builds from the
entry's own status: its `type` names the file type the mode bits of that
status encode (`Other` when they encode none of the seven), its `size` is the
status's size, and each of its three timestamps is the one stored for the
corresponding time of the status, which for a time within 2^52 seconds of the
epoch and a nanosecond part below 10^9 is the seconds or the seconds plus one,
and the seconds when the nanosecond part is zero. With `includeFileAttributes`
clear, no call returns a table, and a second value, when there is one, is an
error message, never an attribute value or `nil`. -/
theorem DirectoryIteratorNext_attributes (w : World) (sp : FTS) (dps : List FTSENT)
    (e : FTSENT) (n s : RawWalk) (h : w.state.ftsp = some sp)
    (hp : sp.pending = RawWalk.prepend dps (.entry e n s))
    (hdps : ∀ d ∈ dps, d.fts_info = FTS_DP)
    (hDP : e.fts_info ≠ FTS_DP) (hNS : e.fts_info ≠ FTS_NS) :
    (includeFileAttributes w.state.iterationFlags = true →
      (DirectoryIteratorNext w).1 =
        [LuaValue.string e.fts_path, LuaValue.table (PushFileAttributes e.fts_statp)]) ∧
    (((PushFileAttributes e.fts_statp).type = "BlockDevice" ↔
        e.fts_statp.st_mode &&& S_IFMT = S_IFBLK) ∧
      ((PushFileAttributes e.fts_statp).type = "CharacterDevice" ↔
        e.fts_statp.st_mode &&& S_IFMT = S_IFCHR) ∧
      ((PushFileAttributes e.fts_statp).type = "Directory" ↔
        e.fts_statp.st_mode &&& S_IFMT = S_IFDIR) ∧
      ((PushFileAttributes e.fts_statp).type = "NamedPipe" ↔
        e.fts_statp.st_mode &&& S_IFMT = S_IFIFO) ∧
      ((PushFileAttributes e.fts_statp).type = "RegularFile" ↔
        e.fts_statp.st_mode &&& S_IFMT = S_IFREG) ∧
      ((PushFileAttributes e.fts_statp).type = "SymbolicLink" ↔
        e.fts_statp.st_mode &&& S_IFMT = S_IFLNK) ∧
      ((PushFileAttributes e.fts_statp).type = "Socket" ↔
        e.fts_statp.st_mode &&& S_IFMT = S_IFSOCK) ∧
      ((PushFileAttributes e.fts_statp).type = "Other" ↔
        e.fts_statp.st_mode &&& S_IFMT ≠ S_IFBLK ∧ e.fts_statp.st_mode &&& S_IFMT ≠ S_IFCHR ∧
        e.fts_statp.st_mode &&& S_IFMT ≠ S_IFDIR ∧ e.fts_statp.st_mode &&& S_IFMT ≠ S_IFIFO ∧
        e.fts_statp.st_mode &&& S_IFMT ≠ S_IFREG ∧ e.fts_statp.st_mode &&& S_IFMT ≠ S_IFLNK ∧
        e.fts_statp.st_mode &&& S_IFMT ≠ S_IFSOCK)) ∧
    (PushFileAttributes e.fts_statp).size = e.fts_statp.st_size ∧
    (∀ (ts : Timespec) (stored : Int),
      (ts, stored) ∈
        [(e.fts_statp.st_mtimespec, (PushFileAttributes e.fts_statp).modificationTime),
         (e.fts_statp.st_ctimespec, (PushFileAttributes e.fts_statp).changeTime),
         (e.fts_statp.st_birthtimespec, (PushFileAttributes e.fts_statp).creationTime)] →
      stored = toLuaInteger (timespecDouble ts) ∧
      (-2 ^ 52 ≤ ts.tv_sec → ts.tv_sec < 2 ^ 52 → 0 ≤ ts.tv_nsec → ts.tv_nsec < 1000000000 →
        (stored = ts.tv_sec ∨ stored = ts.tv_sec + 1) ∧
        (ts.tv_nsec = 0 → stored = ts.tv_sec))) ∧
    (∀ v : World, includeFileAttributes v.state.iterationFlags = false →
      (∀ x ∈ (DirectoryIteratorNext v).1, x.isTable = false) ∧
      (∀ x ∈ (DirectoryIteratorNext v).1.tail, x.isErrorMessage = true) ∧
      (DirectoryIteratorNext v).1.length ≤ 2) := by
  have hw := DirectoryIteratorNext_eq_pullSpec w sp h
  rw [hp, pullSpec_prepend _ _ dps _ hdps] at hw
  refine ⟨?_, fileType_matches_mode e.fts_statp.st_mode, rfl, ?_, ?_⟩
  · intro ha
    simp [hw, pullSpec, hDP, pushEntry, hNS, ha]
  · intro ts stored hmem
    have hstored : stored = toLuaInteger (timespecDouble ts) := by
      simp only [List.mem_cons, Prod.mk.injEq, List.mem_singleton, List.not_mem_nil,
        or_false] at hmem
      rcases hmem with ⟨rfl, rfl⟩ | ⟨rfl, rfl⟩ | ⟨rfl, rfl⟩ <;> rfl
    refine ⟨hstored, ?_⟩
    intro hs1 hs2 hn1 hn2
    rw [hstored]
    exact storedTimestamp_bounds ts hs1 hs2 hn1 hn2
  · intro v hv
    cases hf : v.state.ftsp with
    | none => simp [DirectoryIteratorNext, hf]
    | some vp =>
      rw [DirectoryIteratorNext_eq_pullSpec v vp hf]
      exact pullSpec_no_attribute _ _ hv _ _

/-- Witness for C10: with attributes requested the regular file `root/c.txt`,
last modified at 1 s and 500000000 ns, comes with the table built from its
status. -/
theorem DirectoryIteratorNext_attributes_witness :
    (∀ d ∈ [subLeave], d.fts_info = FTS_DP) ∧ cFile.fts_info ≠ FTS_DP ∧
    cFile.fts_info ≠ FTS_NS ∧
    (DirectoryIteratorNext (heldWorld 3 (RawWalk.ofStream [subLeave, cFile] 0))).1 =
      [LuaValue.string "root/c.txt",
       LuaValue.table
        { type := "RegularFile", modificationTime := 1, changeTime := 2, creationTime := 3,
          size := 12 }] :=
  ⟨by decide, by decide, by decide,
   PushFileAttributes_fileStat ▸
    (DirectoryIteratorNext_attributes (heldWorld 3 (RawWalk.ofStream [subLeave, cFile] 0))
      (heldHandle (RawWalk.ofStream [subLeave, cFile] 0)) [subLeave] cFile (.done 0) (.done 0)
      rfl rfl (by decide) (by decide) (by decide)).1 (by decide)⟩

/-- C9 fails on the code: for a modification time of 1 s and 500000000 ns the
expression `tv_sec + tv_nsec / NANO_SECONDS_PER_SECOND` is 3/2, but the value
`PushFileAttributes` stores is the integer 1: `lua_pushinteger` drops the
sub-second part although `tv_nsec` is not zero. -/
theorem PushFileAttributes_truncates_timestamp :
    fileStat.st_mtimespec = ⟨1, 500000000⟩ ∧
    timespecSeconds fileStat.st_mtimespec = 3 / 2 ∧
    (PushFileAttributes fileStat).modificationTime = 1 ∧
    (((PushFileAttributes fileStat).modificationTime : Int) : ℚ) ≠
      timespecSeconds fileStat.st_mtimespec := by
  have h1 : timespecSeconds fileStat.st_mtimespec = 3 / 2 := by
    norm_num [timespecSeconds, fileStat, NANO_SECONDS_PER_SECOND]
  have h2 : (PushFileAttributes fileStat).modificationTime = 1 := by
    rw [PushFileAttributes_fileStat]
  refine ⟨rfl, h1, h2, ?_⟩
  rw [h1, h2]
  norm_num

/-! ## The handle over sequences of calls -/

theorem closeCount_append (xs ys : List Call) :
    closeCount (xs ++ ys) = closeCount xs + closeCount ys := by
  simp [closeCount]

theorem run_append (pre post : List Op) (w : World) :
    run (pre ++ post) w = run post (run pre w) := by
  induction pre generalizing w with
  | nil => rfl
  | cons op ops ih => simp [run, ih]

theorem pullSpec_release (flags errno : Nat) (walk : RawWalk) :
    ∀ calls : List Call,
      ((pullSpec flags errno walk calls).2.state.ftsp = none ∧
        closeCount (pullSpec flags errno walk calls).2.calls = closeCount calls + 1 ∧
        isEndOfSequence (pullSpec flags errno walk calls).1 = true) ∨
      ((pullSpec flags errno walk calls).2.state.ftsp ≠ none ∧
        closeCount (pullSpec flags errno walk calls).2.calls = closeCount calls ∧
        isEndOfSequence (pullSpec flags errno walk calls).1 = false) := by
  induction walk with
  | done err =>
    intro calls
    left
    simp [pullSpec, closeCount, pushEnd, isEndOfSequence, firstValue]
  | entry e n s ihn _ =>
    intro calls
    by_cases he : e.fts_info = FTS_DP
    · have := ihn (calls ++ [Call.fts_read])
      simpa [pullSpec, he, closeCount] using this
    · right
      by_cases hp : (decide (e.fts_info = FTS_D) && !iterateSubdirectories flags) = true <;>
        simp [pullSpec, he, closeCount, pushEntry, isEndOfSequence, firstValue, hp]

/-- The handle is held and was never closed, or is absent and was closed once. -/
theorem apply_releases_once (op : Op) (w : World)
    (h : (w.state.ftsp ≠ none ∧ closeCount w.calls = 0) ∨
         (w.state.ftsp = none ∧ closeCount w.calls = 1)) :
    ((op.apply w).2.state.ftsp ≠ none ∧ closeCount (op.apply w).2.calls = 0) ∨
    ((op.apply w).2.state.ftsp = none ∧ closeCount (op.apply w).2.calls = 1) := by
  cases op with
  | pull =>
    cases hf : w.state.ftsp with
    | none =>
      rcases h with ⟨h1, _⟩ | ⟨_, h2⟩
      · exact absurd hf h1
      · right; simp [Op.apply, DirectoryIteratorNext, hf, h2]
    | some sp =>
      rcases h with ⟨_, h2⟩ | ⟨h1, _⟩
      · simp only [Op.apply]
        rw [DirectoryIteratorNext_eq_pullSpec w sp hf]
        rcases pullSpec_release w.state.iterationFlags w.errno sp.pending w.calls with
          ⟨a, b, _⟩ | ⟨a, b, _⟩
        · right; exact ⟨a, by omega⟩
        · left; exact ⟨a, by omega⟩
      · rw [hf] at h1; cases h1
  | prune =>
    cases hc : w.state.currentEntry with
    | none => simpa [Op.apply, DirectoryIteratorSkipDescendants, hc] using h
    | some p =>
      simpa [Op.apply, DirectoryIteratorSkipDescendants, hc, fts_set, closeCount] using h
  | close =>
    cases hf : w.state.ftsp with
    | none => simpa [Op.apply, DirectoryIteratorClose, hf] using h
    | some sp =>
      rcases h with ⟨_, h2⟩ | ⟨h1, _⟩
      · right
        simp [Op.apply, DirectoryIteratorClose, hf, clearHandle, fts_close,
          closeCount_append, h2]
        simp [closeCount]
      · rw [hf] at h1; cases h1

theorem run_releases_once (ops : List Op) :
    ∀ w : World,
      ((w.state.ftsp ≠ none ∧ closeCount w.calls = 0) ∨
        (w.state.ftsp = none ∧ closeCount w.calls = 1)) →
      (((run ops w).state.ftsp ≠ none ∧ closeCount (run ops w).calls = 0) ∨
        ((run ops w).state.ftsp = none ∧ closeCount (run ops w).calls = 1)) := by
  induction ops with
  | nil => intro w h; exact h
  | cons op ops ih => intro w h; exact ih _ (apply_releases_once op w h)

theorem apply_closed (op : Op) (w : World) (h : w.state.ftsp = none) :
    (op.apply w).2.state.ftsp = none := by
  cases op with
  | pull => simp [Op.apply, DirectoryIteratorNext, h]
  | prune =>
    cases hc : w.state.currentEntry <;>
      simp [Op.apply, DirectoryIteratorSkipDescendants, hc, fts_set, h]
  | close => simp [Op.apply, DirectoryIteratorClose, h]

theorem run_closed (ops : List Op) :
    ∀ w : World, w.state.ftsp = none → (run ops w).state.ftsp = none := by
  induction ops with
  | nil => intro w h; exact h
  | cons op ops ih => intro w h; exact ih _ (apply_closed op w h)

theorem close_clears_handle (w : World) : (DirectoryIteratorClose w).2.state.ftsp = none := by
  cases hf : w.state.ftsp <;> simp [DirectoryIteratorClose, hf, clearHandle, fts_close]

theorem run_close_mem (ops : List Op) :
    ∀ w : World, Op.close ∈ ops → (run ops w).state.ftsp = none := by
  induction ops with
  | nil => intro w h; simp at h
  | cons op ops ih =>
    intro w h
    by_cases hop : op = Op.close
    · subst hop
      exact run_closed ops _ (close_clears_handle w)
    · have : Op.close ∈ ops := by
        rcases List.mem_cons.mp h with h1 | h1
        · exact absurd h1.symm hop
        · exact h1
      exact ih _ this

theorem DirectoryIterator_opened (fts_open : String → Nat → Except Nat RawWalk) (errno : Nat)
    (path : String) (options : Option OptionsTable) (walk : RawWalk)
    (hopen : fts_open path (ftsOptions (parseIterationFlags options)) = .ok walk) :
    (DirectoryIterator fts_open errno path options).1 = [LuaValue.userdata] ∧
    (DirectoryIterator fts_open errno path options).2.state.ftsp ≠ none ∧
    (DirectoryIterator fts_open errno path options).2.state.currentEntry = none ∧
    closeCount (DirectoryIterator fts_open errno path options).2.calls = 0 := by
  cases walk with
  | done err => simp [DirectoryIterator, hopen, fts_read, FTS.pending, closeCount]
  | entry e n s => simp [DirectoryIterator, hopen, fts_read, FTS.pending, closeCount]

/-- C6: on an iterator that `DirectoryIterator` opened successfully, after any
sequence of calls of the iterator, `skipDescendants` and `close`, `fts_close`
was called at most once; it was called exactly once precisely when the handle
is absent, which is the case when the sequence contains a `close` or a call of
the iterator on a held handle that returned the end of the sequence; and a
`close` on an absent handle returns with the world unchanged. -/
theorem DirectoryIterator_handle_released_once
    (fts_open : String → Nat → Except Nat RawWalk) (errno : Nat)
    (path : String) (options : Option OptionsTable) (walk : RawWalk)
    (hopen : fts_open path (ftsOptions (parseIterationFlags options)) = .ok walk)
    (ops : List Op) :
    closeCount (run ops (DirectoryIterator fts_open errno path options).2).calls ≤ 1 ∧
    (closeCount (run ops (DirectoryIterator fts_open errno path options).2).calls = 1 ↔
      (run ops (DirectoryIterator fts_open errno path options).2).state.ftsp = none) ∧
    (Op.close ∈ ops →
      closeCount (run ops (DirectoryIterator fts_open errno path options).2).calls = 1) ∧
    (∀ pre post : List Op, ops = pre ++ Op.pull :: post →
      (run pre (DirectoryIterator fts_open errno path options).2).state.ftsp ≠ none →
      isEndOfSequence
        (DirectoryIteratorNext (run pre (DirectoryIterator fts_open errno path options).2)).1
        = true →
      closeCount (run ops (DirectoryIterator fts_open errno path options).2).calls = 1) ∧
    (∀ pre post : List Op, ops = pre ++ Op.close :: post →
      (run pre (DirectoryIterator fts_open errno path options).2).state.ftsp = none →
      DirectoryIteratorClose (run pre (DirectoryIterator fts_open errno path options).2) =
        ([], run pre (DirectoryIterator fts_open errno path options).2)) := by
  obtain ⟨_, h0, _, hc0⟩ := DirectoryIterator_opened fts_open errno path options walk hopen
  have hinv := fun l : List Op =>
    run_releases_once l (DirectoryIterator fts_open errno path options).2 (Or.inl ⟨h0, hc0⟩)
  have hiff : closeCount (run ops (DirectoryIterator fts_open errno path options).2).calls = 1 ↔
      (run ops (DirectoryIterator fts_open errno path options).2).state.ftsp = none := by
    rcases hinv ops with ⟨a, b⟩ | ⟨a, b⟩
    · constructor
      · intro h; omega
      · intro h; exact absurd h a
    · exact ⟨fun _ => a, fun _ => b⟩
  refine ⟨?_, hiff, ?_, ?_, ?_⟩
  · rcases hinv ops with ⟨_, b⟩ | ⟨_, b⟩ <;> omega
  · intro hmem
    exact hiff.mpr (run_close_mem ops _ hmem)
  · intro pre post hops hheld hend
    apply hiff.mpr
    rw [hops, run_append]
    show (run post (DirectoryIteratorNext
      (run pre (DirectoryIterator fts_open errno path options).2)).2).state.ftsp = none
    apply run_closed
    cases hf : (run pre (DirectoryIterator fts_open errno path options).2).state.ftsp with
    | none => exact absurd hf hheld
    | some sp =>
      rw [DirectoryIteratorNext_eq_pullSpec _ sp hf] at hend ⊢
      rcases pullSpec_release
          (run pre (DirectoryIterator fts_open errno path options).2).state.iterationFlags
          (run pre (DirectoryIterator fts_open errno path options).2).errno sp.pending
          (run pre (DirectoryIterator fts_open errno path options).2).calls with
        ⟨a, _, _⟩ | ⟨_, _, c⟩
      · exact a
      · rw [c] at hend; cases hend
  · intro pre post _ hnone
    simp [DirectoryIteratorClose, hnone]

/-- Witness for C6: open `root`, call the iterator once, then close twice. -/
theorem DirectoryIterator_handle_released_once_witness :
    ftsOpenTree "root" dirStat exampleContents "root" (ftsOptions (parseIterationFlags none)) =
      .ok (walkOf true (.dir "root" dirStat exampleContents .nil) (.done 0)) ∧
    closeCount (run [Op.pull, Op.close, Op.close] (exampleOpened none)).calls ≤ 1 ∧
    (Op.close ∈ [Op.pull, Op.close, Op.close] →
      closeCount (run [Op.pull, Op.close, Op.close] (exampleOpened none)).calls = 1) :=
  ⟨rfl,
   (DirectoryIterator_handle_released_once (ftsOpenTree "root" dirStat exampleContents) 0 "root"
      none (walkOf true (.dir "root" dirStat exampleContents .nil) (.done 0)) rfl
      [Op.pull, Op.close, Op.close]).1,
   (DirectoryIterator_handle_released_once (ftsOpenTree "root" dirStat exampleContents) 0 "root"
      none (walkOf true (.dir "root" dirStat exampleContents .nil) (.done 0)) rfl
      [Op.pull, Op.close, Op.close]).2.2.1⟩

/-- C8 fails on the code: open `root`, call the iterator once (it returns
`root/a.txt`), then `close`. The handle is now absent but `currentEntry` still
refers to the entry of `root/a.txt`, because `DirectoryIteratorClose` does not
clear it; a following `skipDescendants` therefore calls `fts_set` on that entry
with the `NULL` handle. After the end of the sequence, by contrast,
`currentEntry` is absent and `skipDescendants` does nothing. -/
theorem DirectoryIteratorClose_keeps_currentEntry :
    (exampleOpened none).state.currentEntry = none ∧
    (DirectoryIteratorNext (exampleOpened none)).1 = [LuaValue.string "root/a.txt"] ∧
    (run [Op.pull, Op.close] (exampleOpened none)).state.ftsp = none ∧
    (run [Op.pull, Op.close] (exampleOpened none)).state.currentEntry = some aFile ∧
    (DirectoryIteratorSkipDescendants (run [Op.pull, Op.close] (exampleOpened none))).2.calls =
      (run [Op.pull, Op.close] (exampleOpened none)).calls ++ [Call.fts_set aFile] ∧
    (run [Op.pull, Op.pull, Op.pull] (exampleOpened none)).state.ftsp = none ∧
    (run [Op.pull, Op.pull, Op.pull] (exampleOpened none)).state.currentEntry = none := by
  decide

/-! ## The whole walk of a directory tree -/

theorem yieldsSpec_length_pos (flags errno : Nat) (walk : RawWalk) :
    0 < (yieldsSpec flags errno walk).length := by
  induction walk with
  | done err => simp [yieldsSpec]
  | entry e n s ihn _ =>
    by_cases he : e.fts_info = FTS_DP
    · simpa [yieldsSpec, he] using ihn
    · simp [yieldsSpec, he]

theorem pullUntilEnd_congr (fuel : Nat) (w v : World)
    (h : DirectoryIteratorNext w = DirectoryIteratorNext v) :
    pullUntilEnd (fuel + 1) w = pullUntilEnd (fuel + 1) v := by
  simp [pullUntilEnd, h]

theorem isEndOfSequence_pushEntry (flags errno : Nat) (e : FTSENT) :
    isEndOfSequence (pushEntry flags errno e) = false := by
  simp [pushEntry, isEndOfSequence, firstValue]

theorem isEndOfSequence_pushEnd (flags errno : Nat) :
    isEndOfSequence (pushEnd flags errno) = true := by
  simp [pushEnd, isEndOfSequence, firstValue]

theorem DirectoryIteratorNext_postorder (w : World) (sp : FTS) (e : FTSENT) (n s : RawWalk)
    (h : w.state.ftsp = some sp) (hp : sp.pending = .entry e n s) (he : e.fts_info = FTS_DP) :
    DirectoryIteratorNext w = DirectoryIteratorNext (fts_read w).2 ∧
    (fts_read w).2.state.ftsp =
      some { fts_cur := some e, skipSet := false, next := n, skipped := s } ∧
    (fts_read w).2.state.iterationFlags = w.state.iterationFlags ∧
    (fts_read w).2.errno = w.errno := by
  have hr := fts_read_entry w sp e n s h hp
  have hf : (fts_read w).2.state.ftsp =
      some { fts_cur := some e, skipSet := false, next := n, skipped := s } := by
    simp [hr]
  refine ⟨?_, hf, by simp [hr], by simp [hr]⟩
  rw [DirectoryIteratorNext_eq_pullSpec w sp h, DirectoryIteratorNext_eq_pullSpec _ _ hf, hp]
  simp [pullSpec, he, hr, FTS.pending]

/-- Calling the iterator until the end of the sequence returns `yieldsSpec` of
the pending walk and releases the handle, as soon as the bound on the number
of calls is at least the number of results. -/
theorem pullUntilEnd_eq_yieldsSpec (walk : RawWalk) :
    ∀ (fuel : Nat) (w : World) (sp : FTS), w.state.ftsp = some sp → sp.pending = walk →
      (yieldsSpec w.state.iterationFlags w.errno walk).length ≤ fuel →
      (pullUntilEnd fuel w).1 = yieldsSpec w.state.iterationFlags w.errno walk ∧
      (pullUntilEnd fuel w).2.state.ftsp = none := by
  induction walk with
  | done err =>
    intro fuel w sp h hp hfuel
    obtain ⟨f, rfl⟩ : ∃ f, fuel = f + 1 := ⟨fuel - 1, by simp [yieldsSpec] at hfuel; omega⟩
    have hw := DirectoryIteratorNext_eq_pullSpec w sp h
    rw [hp] at hw
    simp [pullUntilEnd, hw, pullSpec, isEndOfSequence_pushEnd, yieldsSpec]
  | entry e n s ihn ihs =>
    intro fuel w sp h hp hfuel
    have hpos := yieldsSpec_length_pos w.state.iterationFlags w.errno (.entry e n s)
    obtain ⟨f, rfl⟩ : ∃ f, fuel = f + 1 := ⟨fuel - 1, by omega⟩
    have hw := DirectoryIteratorNext_eq_pullSpec w sp h
    rw [hp] at hw
    by_cases he : e.fts_info = FTS_DP
    · obtain ⟨h1, h2, h3, h4⟩ := DirectoryIteratorNext_postorder w sp e n s h hp he
      rw [pullUntilEnd_congr f w _ h1]
      have := ihn (f + 1) (fts_read w).2 _ h2 (by simp [FTS.pending])
        (by rw [h3, h4]; simpa [yieldsSpec, he] using hfuel)
      rw [h3, h4] at this
      simpa [yieldsSpec, he] using this
    · by_cases hprune :
        (decide (e.fts_info = FTS_D) && !iterateSubdirectories w.state.iterationFlags) = true
      · have := ihs f (pullSpec w.state.iterationFlags w.errno (.entry e n s) w.calls).2
          { fts_cur := some e, skipSet := true, next := n, skipped := s }
          (by simp [pullSpec, he, hprune]) (by simp [FTS.pending])
          (by simp [yieldsSpec, he, hprune, pullSpec] at hfuel ⊢; omega)
        simp [pullSpec, he, hprune] at this
        simp [pullUntilEnd, hw, pullSpec, he, hprune, isEndOfSequence_pushEntry, yieldsSpec, this]
      · have := ihn f (pullSpec w.state.iterationFlags w.errno (.entry e n s) w.calls).2
          { fts_cur := some e, skipSet := false, next := n, skipped := s }
          (by simp [pullSpec, he, hprune]) (by simp [FTS.pending])
          (by simp [yieldsSpec, he, hprune, pullSpec] at hfuel ⊢; omega)
        simp [pullSpec, he, hprune] at this
        simp [pullUntilEnd, hw, pullSpec, he, hprune, isEndOfSequence_pushEntry, yieldsSpec, this]

theorem yieldsSpec_walkOf (flags errno : Nat) (nostat : Bool)
    (hr : iterateSubdirectories flags = true) (f : Forest) :
    ∀ k : RawWalk,
      yieldsSpec flags errno (walkOf nostat f k) =
        (f.visits nostat).map (pushEntry flags errno) ++ yieldsSpec flags errno k := by
  induction f with
  | nil => intro k; simp [walkOf, Forest.visits]
  | file p st sib ih =>
    intro k
    cases nostat <;> simp [walkOf, Forest.visits, yieldsSpec, fileEntry, ih]
  | other kind p st sib ih =>
    intro k
    cases nostat <;> cases kind <;>
      simp [walkOf, Forest.visits, yieldsSpec, otherEntry, OtherKind.info, ih]
  | nostatus p err sib ih =>
    intro k
    simp [walkOf, Forest.visits, yieldsSpec, nostatusEntry, ih]
  | dir p st cs sib ihc ihs =>
    intro k
    simp [walkOf, Forest.visits, yieldsSpec, dirEntry, hr, ihc, ihs]
  | unreadable p st err sib ih =>
    intro k
    simp [walkOf, Forest.visits, yieldsSpec, dirEntry, unreadableEntry, hr, ih]

theorem visits_paths (nostat : Bool) (f : Forest) :
    (f.visits nostat).map (fun e => e.fts_path) = f.yieldedPaths := by
  induction f with
  | nil => rfl
  | file p st sib ih => simp [Forest.visits, Forest.yieldedPaths, fileEntry, ih]
  | other kind p st sib ih => simp [Forest.visits, Forest.yieldedPaths, otherEntry, ih]
  | nostatus p err sib ih => simp [Forest.visits, Forest.yieldedPaths, nostatusEntry, ih]
  | dir p st cs sib ihc ihs => simp [Forest.visits, Forest.yieldedPaths, dirEntry, ihc, ihs]
  | unreadable p st err sib ih =>
    simp [Forest.visits, Forest.yieldedPaths, dirEntry, unreadableEntry, ih]

theorem yieldedPaths_readable (f : Forest) (h : f.readable = true) :
    f.yieldedPaths = f.paths := by
  induction f with
  | nil => rfl
  | file p st sib ih => simp [Forest.yieldedPaths, Forest.paths, ih (by simpa [Forest.readable] using h)]
  | other kind p st sib ih =>
    simp [Forest.yieldedPaths, Forest.paths, ih (by simpa [Forest.readable] using h)]
  | nostatus p err sib ih =>
    simp [Forest.yieldedPaths, Forest.paths, ih (by simpa [Forest.readable] using h)]
  | dir p st cs sib ihc ihs =>
    simp only [Forest.readable, Bool.and_eq_true] at h
    simp [Forest.yieldedPaths, Forest.paths, ihc h.1, ihs h.2]
  | unreadable p st err sib ih => simp [Forest.readable] at h

theorem firstValue_pushEntry (flags errno : Nat) (e : FTSENT) :
    firstValue (pushEntry flags errno e) = LuaValue.string e.fts_path := by
  simp [pushEntry, firstValue]

theorem parseIterationFlags_some (options : OptionsTable) :
    iterateSubdirectories (parseIterationFlags (some options)) =
      lua_toboolean options.iterateSubdirectories ∧
    includeFileAttributes (parseIterationFlags (some options)) =
      lua_toboolean options.includeFileAttributes := by
  cases h1 : lua_toboolean options.iterateSubdirectories <;>
    cases h2 : lua_toboolean options.includeFileAttributes <;>
      simp [parseIterationFlags, h1, h2] <;> decide

/-- C3 as stated fails: `root` holds a directory `locked` that cannot be read
and `a.txt`. With `iterateSubdirectories` on, the calls up to the end of the
sequence return `root/locked` twice, first for its pre-order entry and again
for the `FTS_DNR` entry that reports the failure, then `root/a.txt`; the entries
under `root` are `root/locked` and `root/a.txt`, once each. And when `root`
itself cannot be read, the calls return the path of `root`, which is not an
entry under the root. -/
theorem DirectoryIterator_unreadable_directory_twice :
    lockedContents.paths = ["root/locked", "root/a.txt"] ∧
    (pullUntilEnd 4
        (DirectoryIterator (ftsOpenTree "root" dirStat lockedContents) 0 "root"
          (some (OptionsTable.mk (LuaValue.boolean true) LuaValue.nil))).2).1 =
      [[LuaValue.string "root/locked"],
       [LuaValue.string "root/locked",
        LuaValue.fstring "Could not read %s: %s"
          [FormatArg.str "root/locked", FormatArg.strerror 13]],
       [LuaValue.string "root/a.txt"], [LuaValue.nil]] ∧
    ((pullUntilEnd 4
        (DirectoryIterator (ftsOpenTree "root" dirStat lockedContents) 0 "root"
          (some (OptionsTable.mk (LuaValue.boolean true) LuaValue.nil))).2).1.map
      firstValue).count (LuaValue.string "root/locked") = 2 ∧
    (pullUntilEnd 4
        (DirectoryIterator (ftsOpenTree "root" dirStat lockedContents) 0 "root"
          (some (OptionsTable.mk (LuaValue.boolean true) LuaValue.nil))).2).1.map firstValue ≠
      lockedContents.paths.map LuaValue.string ++ [LuaValue.nil] ∧
    (pullUntilEnd 2
        (DirectoryIterator (ftsOpenHierarchy "root" (.unreadable "root" dirStat 13 .nil)) 0 "root"
          (some (OptionsTable.mk (LuaValue.boolean true) LuaValue.nil))).2).1.map firstValue =
      [LuaValue.string "root", LuaValue.nil] := by
  decide

theorem fts_read_afterFirst (flags errno : Nat) (calls : List Call) (walk : RawWalk) :
    ∃ sp : FTS,
      (fts_read
        { state := { ftsp := some { fts_cur := none, skipSet := false,
                                    next := walk, skipped := walk }
                     currentEntry := none
                     iterationFlags := flags }
          errno := errno
          calls := calls }).2.state.ftsp = some sp ∧
      sp.pending = walk.afterFirst ∧
      (fts_read
        { state := { ftsp := some { fts_cur := none, skipSet := false,
                                    next := walk, skipped := walk }
                     currentEntry := none
                     iterationFlags := flags }
          errno := errno
          calls := calls }).2.state.iterationFlags = flags := by
  cases walk <;> simp [fts_read, FTS.pending, RawWalk.afterFirst]

theorem yieldsSpec_afterFirst (flags errno : Nat) (nostat : Bool)
    (hr : iterateSubdirectories flags = true) (tree : Forest) :
    yieldsSpec flags errno (walkOf nostat tree (.done 0)).afterFirst =
      ((tree.visits nostat).tail).map (pushEntry flags errno) ++ [pushEnd flags 0] := by
  cases tree <;>
    simp [walkOf, RawWalk.afterFirst, Forest.visits, yieldsSpec_walkOf _ _ _ hr, yieldsSpec,
      dirEntry, unreadableEntry]

theorem visits_tail_paths (nostat : Bool) (f : Forest) :
    ((f.visits nostat).tail).map (fun e => e.fts_path) = f.yieldedPaths.tail := by
  rw [← visits_paths nostat f, List.map_tail]

/-- C3, amended: on a file system that holds the hierarchy `tree` at `root`,
walked physically (a directory is its pre-order entry, its contents unless
skipped, and its post-order entry; a directory that cannot be read is its
pre-order entry followed by an `FTS_DNR` entry), opening the iterator with
`iterateSubdirectories` on and calling it until the end of the sequence
returns, as first values, the paths of the hierarchy in pre-order without the
first one, the root's, which `DirectoryIterator` consumed, never a post-order
entry, and then the end of the sequence, after which the handle is released;
the path of a directory that cannot be read comes once more than the others,
for its `FTS_DNR` entry. So for a readable root directory the calls return the
paths of its contents in pre-order, each once except that a subdirectory that
cannot be read comes twice in a row, and each exactly once when every
directory can be read; for a root that cannot be read they return the root's
path once. -/
theorem DirectoryIterator_recursive_preorder (root : String) (tree : Forest)
    (errno : Nat) (options : OptionsTable) (fuel : Nat)
    (hrec : lua_toboolean options.iterateSubdirectories = true)
    (hfuel : tree.yieldedPaths.tail.length + 1 ≤ fuel) :
    (DirectoryIterator (ftsOpenHierarchy root tree) errno root (some options)).1 =
      [LuaValue.userdata] ∧
    (pullUntilEnd fuel
        (DirectoryIterator (ftsOpenHierarchy root tree) errno root (some options)).2).1.map
        firstValue =
      tree.yieldedPaths.tail.map LuaValue.string ++ [LuaValue.nil] ∧
    (∀ (p : String) (st : Stat) (contents : Forest), tree = .dir p st contents .nil →
      (pullUntilEnd fuel
          (DirectoryIterator (ftsOpenHierarchy root tree) errno root (some options)).2).1.map
          firstValue =
        contents.yieldedPaths.map LuaValue.string ++ [LuaValue.nil] ∧
      (contents.readable = true →
        (pullUntilEnd fuel
            (DirectoryIterator (ftsOpenHierarchy root tree) errno root (some options)).2).1.map
            firstValue =
          contents.paths.map LuaValue.string ++ [LuaValue.nil])) ∧
    (∀ (p : String) (st : Stat) (err : Nat), tree = .unreadable p st err .nil →
      (pullUntilEnd fuel
          (DirectoryIterator (ftsOpenHierarchy root tree) errno root (some options)).2).1.map
          firstValue =
        [LuaValue.string p, LuaValue.nil]) ∧
    (pullUntilEnd fuel
        (DirectoryIterator (ftsOpenHierarchy root tree) errno root
          (some options)).2).2.state.ftsp = none := by
  obtain ⟨hflag1, hflag2⟩ := parseIterationFlags_some options
  rw [hrec] at hflag1
  have hnostat : (ftsOptions (parseIterationFlags (some options)) &&& FTS_NOSTAT != 0) =
      !lua_toboolean options.includeFileAttributes := by
    cases h2 : lua_toboolean options.includeFileAttributes <;>
      simp [ftsOptions, hflag2, h2] <;> decide
  have hopen : ftsOpenHierarchy root tree root (ftsOptions (parseIterationFlags (some options)))
      = .ok (walkOf (!lua_toboolean options.includeFileAttributes) tree (.done 0)) := by
    simp [ftsOpenHierarchy, hnostat]
  have hW : (DirectoryIterator (ftsOpenHierarchy root tree) errno root (some options)).2 =
      (fts_read
        { state := { ftsp := some {
                       fts_cur := none, skipSet := false,
                       next := walkOf (!lua_toboolean options.includeFileAttributes) tree
                         (.done 0),
                       skipped := walkOf (!lua_toboolean options.includeFileAttributes) tree
                         (.done 0) }
                     currentEntry := none
                     iterationFlags := parseIterationFlags (some options) }
          errno := errno
          calls := [Call.fts_open root (ftsOptions (parseIterationFlags (some options)))] }).2 := by
    simp [DirectoryIterator, hopen]
  obtain ⟨sp, hsp, hpend, hfl⟩ := fts_read_afterFirst (parseIterationFlags (some options)) errno
    [Call.fts_open root (ftsOptions (parseIterationFlags (some options)))]
    (walkOf (!lua_toboolean options.includeFileAttributes) tree (.done 0))
  rw [← hW] at hsp hfl
  have hlen : ((tree.visits (!lua_toboolean options.includeFileAttributes)).tail).length =
      tree.yieldedPaths.tail.length := by
    rw [← visits_tail_paths (!lua_toboolean options.includeFileAttributes) tree, List.length_map]
  have hmain := pullUntilEnd_eq_yieldsSpec _ fuel _ sp hsp hpend
    (by
      rw [hfl, yieldsSpec_afterFirst _ _ _ hflag1]
      simp only [List.length_append, List.length_map, List.length_singleton, hlen]
      exact hfuel)
  rw [hfl, yieldsSpec_afterFirst _ _ _ hflag1] at hmain
  have hfirst : (pullUntilEnd fuel
        (DirectoryIterator (ftsOpenHierarchy root tree) errno root (some options)).2).1.map
        firstValue =
      tree.yieldedPaths.tail.map LuaValue.string ++ [LuaValue.nil] := by
    rw [hmain.1, ← visits_tail_paths (!lua_toboolean options.includeFileAttributes) tree,
      List.map_append, List.map_map, List.map_map]
    congr 1
  refine ⟨by simp [DirectoryIterator, hopen], hfirst, ?_, ?_, hmain.2⟩
  · intro p st contents htree
    have hc : (pullUntilEnd fuel
          (DirectoryIterator (ftsOpenHierarchy root tree) errno root (some options)).2).1.map
          firstValue =
        contents.yieldedPaths.map LuaValue.string ++ [LuaValue.nil] := by
      rw [hfirst, htree]
      simp [Forest.yieldedPaths]
    refine ⟨hc, ?_⟩
    intro hread
    rw [hc, yieldedPaths_readable contents hread]
  · intro p st err htree
    rw [hfirst, htree]
    simp [Forest.yieldedPaths]

/-- Witness for C3: `root` holding `a.txt` and `sub/b.txt` yields `root/a.txt`,
`root/sub`, `root/sub/b.txt` and then the end of the sequence. -/
theorem DirectoryIterator_recursive_preorder_witness :
    lua_toboolean (OptionsTable.mk (LuaValue.boolean true) LuaValue.nil).iterateSubdirectories
      = true ∧
    (Forest.dir "root" dirStat exampleContents .nil).yieldedPaths.tail.length + 1 ≤ 4 ∧
    exampleContents.readable = true ∧
    (pullUntilEnd 4
        (DirectoryIterator (ftsOpenHierarchy "root" (.dir "root" dirStat exampleContents .nil))
          0 "root"
          (some (OptionsTable.mk (LuaValue.boolean true) LuaValue.nil))).2).1.map firstValue =
      [LuaValue.string "root/a.txt", LuaValue.string "root/sub",
       LuaValue.string "root/sub/b.txt", LuaValue.nil] :=
  ⟨rfl, by decide, rfl,
   ((DirectoryIterator_recursive_preorder "root" (.dir "root" dirStat exampleContents .nil) 0
      (OptionsTable.mk (LuaValue.boolean true) LuaValue.nil) 4 rfl (by decide)).2.2.1
      "root" dirStat exampleContents rfl).2 rfl⟩

end LuaFS
